import Mathlib

/-!
Verification development for the crypto-signal scraper (`src/app.py`).

Texts are modelled as `List Char` (one element per Unicode code point, as in
Python's `str`).  The Python regular expressions used by `SignalParser` are
embedded by a small backtracking matcher (`RE` / `mrun`) whose alternative
order reproduces `re.search` semantics: leftmost match wins, alternation
prefers the left branch, quantifiers are greedy.  The matcher supports every
feature the source's patterns use: character classes, concatenation,
alternation, greedy `*`/`+`/`?`/`{m,n}`, one capturing group, the word
boundary assertion and negative lookahead.

`DatabaseManager` is modelled as a pure state machine: the `signals` and
`deleted_signals` collections become association lists keyed by the signal
id (the code maintains a unique index on `id`), and the `_connected` flag is
part of the state.  Driver-level transient failures (`PyMongoError`) are not
modelled; each primitive executes its success path, guarded by `_connected`
exactly as in the source.  Wall-clock reads (`datetime.now`) become an
explicit `now : Nat` argument.
-/

set_option maxHeartbeats 2000000

namespace App

/-! ## Basic character and string helpers (Python `str` operations) -/

/-- Python `\s` restricted to the ASCII whitespace characters
(the only whitespace appearing in this development). -/
def isSpacePy (c : Char) : Bool :=
  c = ' ' || c = '\t' || c = '\n' || c = '\r' || c = '\x0b' || c = '\x0c'

/-- Python `\w` (word character) restricted to the ASCII repertoire used here:
letters, digits and underscore. -/
def isWordPy (c : Char) : Bool :=
  c.isAlpha || c.isDigit || c = '_'

/-- Python `str.upper`, restricted to ASCII (all inputs in this development
are ASCII letters, digits, punctuation and emoji, on which Python's `upper`
agrees with ASCII upcasing). -/
def upperL (s : List Char) : List Char :=
  s.map Char.toUpper

/-- `unicodedata.normalize('NFKC', text)` (used by
`SignalParser.normalize_text`).  NFKC is the identity on ASCII characters and
on the emoji appearing in this development, which is the only repertoire any
theorem below exercises; it is therefore modelled as the identity map.
Stylized mathematical-alphabet folding is not exercised by any claim. -/
def nfkc (s : List Char) : List Char := s

/-- The substring `s[a:b]` (half-open, as in Python slicing). -/
def listSub (s : List Char) (a b : Nat) : List Char :=
  (s.drop a).take (b - a)

/-- The decimal digit characters. -/
def digitChar : Nat → Char
  | 0 => '0' | 1 => '1' | 2 => '2' | 3 => '3' | 4 => '4'
  | 5 => '5' | 6 => '6' | 7 => '7' | 8 => '8' | _ => '9'

/-- Worker for `natStr`; the fuel (any bound on the digit count) keeps the
recursion structural so that it reduces inside the kernel. -/
def natStrGo : Nat → Nat → List Char
  | 0, _ => []
  | fuel + 1, n =>
    if n < 10 then [digitChar n]
    else natStrGo fuel (n / 10) ++ [digitChar (n % 10)]

/-- Decimal digits of a natural number, as Python's `str(n)`. -/
def natStr (n : Nat) : List Char := natStrGo (n + 1) n

/-- Python `str(i)` for an integer. -/
def intStr : Int → List Char
  | .ofNat n => natStr n
  | .negSucc n => '-' :: natStr (n + 1)

/-- Python `int(s)` on a digit string. -/
def natOfDigits (s : List Char) : Nat :=
  s.foldl (fun a c => 10 * a + (c.toNat - 48)) 0

/-- Python `s.isdigit()` for the ASCII repertoire. -/
def pyIsDigit (s : List Char) : Bool :=
  !s.isEmpty && s.all Char.isDigit

/-- Characters stripped from both ends by `value.strip('.-')`. -/
def isStripChar (c : Char) : Bool :=
  c = '.' || c = '-'

/-- Python `s.strip('.-')`: drop the characters of the set from both ends. -/
def stripDotMinus (s : List Char) : List Char :=
  ((s.dropWhile isStripChar).reverse.dropWhile isStripChar).reverse

/-- `SignalParser.clean_number`: keep only digits, dots and minus signs
(`re.sub(r'[^\d.\-]', '', value)`), then `strip('.-')`.  The `if not value`
guard of the source is subsumed: both branches yield `[]` on `[]`. -/
def clean_number (value : List Char) : List Char :=
  stripDotMinus (value.filter (fun c => c.isDigit || c = '.' || c = '-'))

/-- Worker for `pyReplace`; the fuel (any bound on the string length)
keeps the recursion structural so that it reduces inside the kernel.
Every step consumes at least one character. -/
def pyReplaceGo (pat rep : List Char) : Nat → List Char → List Char
  | 0, s => s
  | fuel + 1, s =>
    match s with
    | [] => []
    | c :: rest =>
      if pat ≠ [] ∧ pat.isPrefixOf (c :: rest) then
        rep ++ pyReplaceGo pat rep fuel ((c :: rest).drop pat.length)
      else
        c :: pyReplaceGo pat rep fuel rest

/-- Python `s.replace(pat, rep)` for a non-empty `pat`: replace every
(left-to-right, non-overlapping) occurrence. -/
def pyReplace (pat rep s : List Char) : List Char := pyReplaceGo pat rep s.length s

/-- Python `float(cleaned) > 0` (with a failed parse counting as `false`),
specialised to outputs of `clean_number`: such a string contains only
digits, dots and minus signs and neither starts nor ends with a dot or a
minus, so `float` succeeds exactly when no minus sign survived (a surviving
minus is interior) and at most one dot is present, and the value is
positive exactly when some nonzero digit occurs. -/
def pyFloatGtZero (s : List Char) : Bool :=
  !s.isEmpty && !s.contains '-' && s.all (fun c => c.isDigit || c = '.')
    && s.count '.' ≤ 1 && s.any (fun c => c.isDigit && c ≠ '0')

/-! ## A backtracking regular-expression matcher

`mrun fuel r s pos cap` enumerates, in Python's backtracking priority
order, the ways `r` can match `s` starting at offset `pos`; each result is
the end offset together with the span of the capturing group (if one
participated).  `fuel` bounds the recursion depth; every pattern below is
run with fuel far exceeding its maximal backtracking depth, and the
structural theorems hold for every fuel. -/

inductive RE where
  | eps
  | cls (p : Char → Bool)
  | cat (a b : RE)
  | alt (a b : RE)
  | star (r : RE)
  | grp (r : RE)
  | wb
  | nla (r : RE)

/-- Is there a word boundary (`\b`) at offset `pos`? -/
def boundaryAt (s : List Char) (pos : Nat) : Bool :=
  let right := match s[pos]? with | some c => isWordPy c | none => false
  let left := if pos = 0 then false
              else match s[pos - 1]? with | some c => isWordPy c | none => false
  left != right

def mrun : Nat → RE → List Char → Nat → Option (Nat × Nat) →
    List (Nat × Option (Nat × Nat))
  | 0, _, _, _, _ => []
  | _ + 1, .eps, _, pos, cap => [(pos, cap)]
  | _ + 1, .cls p, s, pos, cap =>
    match s[pos]? with
    | some c => if p c then [(pos + 1, cap)] else []
    | none => []
  | f + 1, .cat a b, s, pos, cap =>
    (mrun f a s pos cap).flatMap (fun x => mrun f b s x.1 x.2)
  | f + 1, .alt a b, s, pos, cap =>
    mrun f a s pos cap ++ mrun f b s pos cap
  | f + 1, .star r, s, pos, cap =>
    ((mrun f r s pos cap).flatMap (fun x =>
      if pos < x.1 then mrun f (.star r) s x.1 x.2 else [])) ++ [(pos, cap)]
  | f + 1, .grp r, s, pos, cap =>
    (mrun f r s pos cap).map (fun x => (x.1, some (pos, x.1)))
  | _ + 1, .wb, s, pos, cap =>
    if boundaryAt s pos then [(pos, cap)] else []
  | f + 1, .nla r, s, pos, cap =>
    if (mrun f r s pos none).isEmpty then [(pos, cap)] else []

/-- Fuel used for all concrete pattern runs: far beyond the backtracking
depth any pattern of the source can reach on the strings involved. -/
def FUEL : Nat := 5000

/-- `re.search` from a given start offset: the first offset (scanning left
to right) at which the pattern matches, with the end offset of the
priority-first match and the group span. -/
def searchFrom (r : RE) (s : List Char) (start : Nat) :
    Option (Nat × Nat × Option (Nat × Nat)) :=
  (List.range (s.length + 1)).findSome? (fun j =>
    let i := start + j
    if i ≤ s.length then
      match mrun FUEL r s i none with
      | x :: _ => some (i, x.1, x.2)
      | [] => none
    else none)

/-- `re.search(pattern, s)`. -/
def reSearch (r : RE) (s : List Char) : Option (Nat × Nat × Option (Nat × Nat)) :=
  searchFrom r s 0

/-- `re.search(pattern, s) is not None`. -/
def reTest (r : RE) (s : List Char) : Bool :=
  (reSearch r s).isSome

/-- `match.group(1)` of `re.search`, when the pattern has one group. -/
def searchG (r : RE) (s : List Char) : Option (List Char) :=
  match reSearch r s with
  | some (_, _, some (a, b)) => some (listSub s a b)
  | _ => none

/-- Worker for `re.findall` (pattern with one capturing group): repeated
non-overlapping searches, advancing past each match. -/
def findAllGo (r : RE) (s : List Char) : Nat → Nat → List (List Char)
  | 0, _ => []
  | fuel + 1, i =>
    match searchFrom r s i with
    | none => []
    | some (a, e, cap) =>
      (match cap with | some (x, y) => listSub s x y | none => []) ::
        findAllGo r s fuel (if a < e then e else a + 1)

/-- `re.findall(pattern, s)` for a pattern with one capturing group. -/
def reFindAllG (r : RE) (s : List Char) : List (List Char) :=
  findAllGo r s (s.length + 1) 0

/-! ### Pattern combinators -/

def chrR (c : Char) : RE := .cls (fun x => x = c)

def strL : List Char → RE
  | [] => .eps
  | c :: cs => .cat (chrR c) (strL cs)

/-- A literal string. -/
def lit (s : String) : RE := strL s.toList

/-- A character class listing its members. -/
def anyOf (s : String) : RE := .cls (fun c => s.toList.contains c)

/-- `\d` (Python's class is Unicode-aware; it coincides with ASCII digits
on the repertoire exercised here). -/
def dR : RE := .cls Char.isDigit

/-- `\s`. -/
def sR : RE := .cls isSpacePy

def seqR (l : List RE) : RE := l.foldr .cat .eps

def altL : List RE → RE
  | [] => .cls (fun _ => false)
  | [r] => r
  | r :: rs => .alt r (altL rs)

def plusR (r : RE) : RE := .cat r (.star r)

def optR (r : RE) : RE := .alt r .eps

/-- Exactly `n` copies. -/
def repExact : Nat → RE → RE
  | 0, _ => .eps
  | n + 1, r => .cat r (repExact n r)

/-- At most `n` copies, greedy. -/
def upTo : Nat → RE → RE
  | 0, _ => .eps
  | n + 1, r => .alt (.cat r (upTo n r)) .eps

/-- `{lo,hi}`, greedy. -/
def repR (r : RE) (lo hi : Nat) : RE := .cat (repExact lo r) (upTo (hi - lo) r)

/-! ## `SignalParser` (src/app.py, lines 176–531) -/

namespace SignalParser

/-- `SignalParser.KNOWN_COINS`.  The source stores these in a Python `set`
literal and iterates it in pattern 6 of `extract_pair`; set iteration order
is unspecified in Python, so the literal's textual order is used here.  No
theorem below depends on the order (a claim evaluating pattern 6 concretely
would only do so on texts containing at most one known coin). -/
def KNOWN_COINS : List String := [
  "BTC", "ETH", "BNB", "XRP", "ADA", "DOGE", "SOL", "DOT", "MATIC", "SHIB",
  "LTC", "TRX", "AVAX", "LINK", "ATOM", "UNI", "XMR", "ETC", "XLM", "BCH",
  "APT", "FIL", "LDO", "ARB", "OP", "INJ", "SUI", "SEI", "TIA", "JUP",
  "PEPE", "WIF", "BONK", "FLOKI", "MEME", "ORDI", "SATS", "RATS", "1000SATS",
  "ONDO", "BOB", "BEAT", "RENDER", "FET", "AGIX", "OCEAN", "TAO", "WLD",
  "NEAR", "ICP", "VET", "ALGO", "GRT", "FTM", "SAND", "MANA", "AXS", "GALA",
  "SAPIEN", "COOKIE", "AI16Z", "FARTCOIN", "VIRTUAL", "AIXBT", "ZEREBRO",
  "GRIFFAIN", "GOAT", "AVA", "ELIZA", "ARC", "SWARMS", "ALCH", "AGENT",
  "ENJ", "IMX", "BLUR", "MAGIC", "GMT", "APE", "DYDX", "GMX", "SNX", "CRV",
  "AAVE", "MKR", "COMP", "SUSHI", "YFI", "BAL", "ZRX", "1INCH", "LQTY",
  "PENDLE", "EIGEN", "ENA", "ETHFI", "W", "STRK", "PYTH", "JTO", "NTRN",
  "DYM", "ALT", "MANTA", "PIXEL", "PORTAL", "AEVO", "BOME", "SLERF",
  "POPCAT", "MEW", "BRETT", "NEIRO", "TURBO", "PEOPLE", "ACH", "RSR",
  "JASMY", "CHZ", "ENS", "LRC", "MASK", "STORJ", "ANT", "BAT", "ANKR"]

/-- `SignalParser.normalize_text`. -/
def normalize_text (text : List Char) : List Char := nfkc text

/-- `[A-Z0-9]`. -/
def alnumU (c : Char) : Bool := ('A' ≤ c && c ≤ 'Z') || c.isDigit

/-- `[A-Z]`. -/
def upperAZ (c : Char) : Bool := 'A' ≤ c && c ≤ 'Z'

/-- `[⚡💎🔥✨🚀]`. -/
def emojiPairCls : RE :=
  .cls (fun c => c = '⚡' || c = '💎' || c = '🔥' || c = '✨' || c = '🚀')

/-- `[\d.,]`. -/
def numCC : RE := .cls (fun c => c.isDigit || c = '.' || c = ',')

/-- `[\d.]`. -/
def dotDig : RE := .cls (fun c => c.isDigit || c = '.')

/-- `[\s:=\-]`. -/
def wsColEq : RE := .cls (fun c => isSpacePy c || c = ':' || c = '=' || c = '-')

/-- Pattern 1: `[⚡💎🔥✨🚀]+\s*([A-Z0-9]{2,15}(?:USDT|BUSD|USD)?)\s*[⚡💎🔥✨🚀]+`. -/
def pairPat1 : RE :=
  seqR [plusR emojiPairCls, .star sR,
        .grp (.cat (repR (.cls alnumU) 2 15)
          (optR (altL [lit "USDT", lit "BUSD", lit "USD"]))),
        .star sR, plusR emojiPairCls]

/-- Pattern 2: `\b([A-Z0-9]{2,10})\s*/\s*USDT`. -/
def pairPat2 : RE :=
  seqR [.wb, .grp (repR (.cls alnumU) 2 10), .star sR, chrR '/', .star sR, lit "USDT"]

/-- Pattern 3: `#([A-Z0-9]{2,15}(?:USDT|PERP)?)\b`. -/
def pairPat3 : RE :=
  seqR [chrR '#',
        .grp (.cat (repR (.cls alnumU) 2 15) (optR (altL [lit "USDT", lit "PERP"]))),
        .wb]

/-- Pattern 4: `\$([A-Z]{2,10})\b`. -/
def pairPat4 : RE := seqR [chrR '$', .grp (repR (.cls upperAZ) 2 10), .wb]

/-- Pattern 5: `\b([A-Z0-9]{2,10}USDT)\b` (nested explicitly so the shape
of the capturing group is available to the suffix lemma below). -/
def pairPat5 : RE :=
  .cat .wb (.cat (.grp (.cat (repR (.cls alnumU) 2 10) (strL "USDT".toList))) .wb)

/-- Pattern 6 helper: `\bCOIN\b`. -/
def coinPat (coin : String) : RE := .cat .wb (.cat (lit coin) .wb)

/-- Pattern 6 helper: `\b(LONG|SHORT|BUY|SELL|POSITION)\b`. -/
def dirKwPat : RE :=
  seqR [.wb, altL [lit "LONG", lit "SHORT", lit "BUY", lit "SELL", lit "POSITION"], .wb]

/-- Pattern 7: `\b([A-Z0-9]{2,10})\s*/\s*(?:USDT|USD|BUSD)`. -/
def pairPat7 : RE :=
  seqR [.wb, .grp (repR (.cls alnumU) 2 10), .star sR, chrR '/', .star sR,
        altL [lit "USDT", lit "USD", lit "BUSD"]]

/-- `SignalParser.extract_pair`: the seven prioritized patterns, first
match wins; missing quote suffixes are appended, `BUSD` is rewritten to
`USDT` (pattern 1) and `PERP` is removed (pattern 3). -/
def extract_pair (text normalized : List Char) : Option (List Char) :=
  let text_upper := upperL normalized
  let _ := text
  match searchG pairPat1 text_upper with
  | some g =>
    let pair := if ("USDT".toList <:+ g) ∨ ("BUSD".toList <:+ g) ∨ ("USD".toList <:+ g)
                then g else g ++ "USDT".toList
    some (pyReplace "BUSD".toList "USDT".toList pair)
  | none =>
  match searchG pairPat2 text_upper with
  | some g => some (g ++ "USDT".toList)
  | none =>
  match searchG pairPat3 text_upper with
  | some g =>
    let pair := pyReplace "PERP".toList [] g
    some (if ("USDT".toList <:+ pair) then pair else pair ++ "USDT".toList)
  | none =>
  match searchG pairPat4 text_upper with
  | some g => some (g ++ "USDT".toList)
  | none =>
  match searchG pairPat5 text_upper with
  | some g => some g
  | none =>
  match KNOWN_COINS.findSome? (fun coin =>
      if reTest (coinPat coin) text_upper && reTest dirKwPat text_upper
      then some (coin.toList ++ "USDT".toList) else none) with
  | some p => some p
  | none =>
  match searchG pairPat7 text_upper with
  | some g => some (g ++ "USDT".toList)
  | none => none

inductive SignalDirection where
  | LONG
  | SHORT
  | UNKNOWN
deriving DecidableEq

/-- `SignalDirection.value` (the enum's string payload). -/
def SignalDirection.value : SignalDirection → List Char
  | .LONG => "LONG".toList
  | .SHORT => "SHORT".toList
  | .UNKNOWN => "UNKNOWN".toList

/-- The `long_patterns` list of `extract_direction`. -/
def long_patterns : List RE := [
  seqR [.wb, lit "LONG", .star sR, lit "POSITION", .wb],
  seqR [.wb, lit "LONG", .wb],
  seqR [.wb, lit "BUY", .star sR, optR (chrR '/'), .star sR, lit "LONG", .wb],
  seqR [.wb, lit "BUY", plusR sR, lit "LONG", .wb],
  seqR [.wb, lit "BUY", plusR sR, lit "ABOVE", .wb],
  seqR [.wb, lit "BULLISH", .wb],
  seqR [.wb, lit "GO", plusR sR, lit "LONG", .wb]]

/-- The `short_patterns` list of `extract_direction`. -/
def short_patterns : List RE := [
  seqR [.wb, lit "SHORT", .star sR, lit "POSITION", .wb],
  seqR [.wb, lit "SHORT", .wb],
  seqR [.wb, lit "SELL", .star sR, optR (chrR '/'), .star sR, lit "SHORT", .wb],
  seqR [.wb, lit "SELL", plusR sR, lit "SHORT", .wb],
  seqR [.wb, lit "SELL", plusR sR, lit "ABOVE", .wb],
  seqR [.wb, lit "SELL", plusR sR, lit "BELOW", .wb],
  seqR [.wb, lit "BEARISH", .wb],
  seqR [.wb, lit "GO", plusR sR, lit "SHORT", .wb]]

/-- `\bBUY\b`. -/
def buyPat : RE := seqR [.wb, lit "BUY", .wb]

/-- `\bSELL\b`. -/
def sellPat : RE := seqR [.wb, lit "SELL", .wb]

/-- `SignalParser.extract_direction`: directional emoji first (on the raw
text), then the long patterns, then the short patterns, then standalone
BUY/SELL. -/
def extract_direction (text normalized : List Char) : SignalDirection :=
  let text_upper := upperL normalized
  let original_text := text
  if ("🟢".toList <:+: original_text) ∨ ("📈".toList <:+: original_text)
      ∨ ("⬆️".toList <:+: original_text) ∨ ("🔼".toList <:+: original_text) then
    .LONG
  else if ("🔴".toList <:+: original_text) ∨ ("📉".toList <:+: original_text)
      ∨ ("⬇️".toList <:+: original_text) ∨ ("🔽".toList <:+: original_text) then
    .SHORT
  else if long_patterns.any (fun p => reTest p text_upper) then .LONG
  else if short_patterns.any (fun p => reTest p text_upper) then .SHORT
  else
    let has_buy := reTest buyPat text_upper
    let has_sell := reTest sellPat text_upper
    if has_buy && !has_sell then .LONG
    else if has_sell && !has_buy then .SHORT
    else .UNKNOWN

/-- The `market_patterns` list of `extract_entry`. -/
def market_patterns : List RE := [
  seqR [lit "ENTRY", .star sR, optR (altL [chrR ':', chrR '-']), .star sR, lit "MARKET"],
  seqR [lit "MARKET", .star sR, lit "PRICE"],
  seqR [lit "ENTRY", .star sR, optR (.cat (lit "AT") (.star sR)), lit "MARKET"],
  seqR [.wb, lit "CMP", .wb],
  seqR [lit "CURRENT", .star sR, optR (.cat (lit "MARKET") (.star sR)), lit "PRICE"],
  seqR [lit "MARKET", .star sR, lit "ENTRY"],
  seqR [lit "ENTRY", .star sR, optR (.cat (lit "AT") (.star sR)), lit "CURRENT"]]

/-- `(?:ABOVE|BELOW|AROUND|NEAR|AT)\s*[-:=]?\s*([\d.,]+)`. -/
def above_below_pat : RE :=
  seqR [altL [lit "ABOVE", lit "BELOW", lit "AROUND", lit "NEAR", lit "AT"],
        .star sR, optR (anyOf "-:="), .star sR, .grp (plusR numCC)]

/-- The `entry_patterns` list of `extract_entry`. -/
def entry_patterns : List RE := [
  seqR [lit "ENTRY", .star sR, optR (altL [lit "PRICE", lit "ZONE", lit "POINT"]),
        .star wsColEq, .grp (plusR numCC)],
  seqR [lit "ENTER", .star sR, optR (altL [lit "AT", lit "AROUND", lit "NEAR"]),
        .star wsColEq, .grp (plusR numCC)],
  seqR [lit "EP", .star wsColEq, .grp (plusR numCC)],
  seqR [lit "PRICE", .star wsColEq, .grp (plusR numCC)],
  seqR [lit "BUY", .star sR, optR (altL [lit "AT", lit "ZONE"]),
        .star wsColEq, .grp (plusR numCC)],
  seqR [lit "SELL", .star sR, optR (altL [lit "AT", lit "ZONE"]),
        .star wsColEq, .grp (plusR numCC)]]

/-- Body of the `entry_patterns` loop of `extract_entry`: a cleaned match
is returned only when it is non-empty and parses as a float `> 0`;
otherwise the loop moves to the next pattern. -/
def entryTry (text_upper : List Char) (p : RE) : Option (List Char) :=
  match searchG p text_upper with
  | some g =>
    let cleaned := clean_number g
    if cleaned ≠ [] ∧ pyFloatGtZero cleaned = true then some cleaned else none
  | none => none

/-- `SignalParser.extract_entry`. -/
def extract_entry (normalized : List Char) : List Char :=
  let text_upper := upperL normalized
  if market_patterns.any (fun p => reTest p text_upper) then "Market".toList
  else
    let loop := match entry_patterns.findSome? (entryTry text_upper) with
      | some v => v
      | none => "Market".toList
    match searchG above_below_pat text_upper with
    | some g =>
      let cleaned := clean_number g
      if cleaned ≠ [] then cleaned else loop
    | none => loop

/-- `TARGETS?\s*[:\n]?\s*([\d.]+%(?:\s*/\s*[\d.]+%)+)`. -/
def pct_group_pat : RE :=
  seqR [lit "TARGET", optR (chrR 'S'), .star sR, optR (anyOf ":\n"), .star sR,
        .grp (seqR [plusR dotDig, chrR '%',
          plusR (seqR [.star sR, chrR '/', .star sR, plusR dotDig, chrR '%'])])]

/-- `([\d.]+)%`, run over the captured group of `pct_group_pat`. -/
def pct_inner_pat : RE := .cat (.grp (plusR dotDig)) (chrR '%')

/-- `(?:TAKE\s*PROFIT|TP)\s*[:\-=]?\s*([\d.]+)\s*%`. -/
def single_pct_pat : RE :=
  seqR [altL [seqR [lit "TAKE", .star sR, lit "PROFIT"], lit "TP"], .star sR,
        optR (anyOf ":-="), .star sR, .grp (plusR dotDig), .star sR, chrR '%']

/-- The `tp_patterns` list of `extract_targets`. -/
def tp_patterns : List RE := [
  seqR [lit "TP", .star sR, anyOf "-:=", .star sR, .grp (plusR numCC),
        .nla (.cat (.star sR) (chrR '%'))],
  seqR [lit "TP", .star sR, plusR dR, .star sR, optR (anyOf "-:="), .star sR,
        .grp (plusR numCC)],
  seqR [lit "TARGET", .star sR, .star dR, .star sR, anyOf "-:=", .star sR,
        .grp (plusR numCC)],
  seqR [lit "TAKE", .star sR, lit "PROFIT", .star sR, .star dR, .star sR,
        anyOf "-:=", .star sR, .grp (plusR numCC)]]

/-- `🎯\s*([\d.,]+)`, run over `normalized` (not upper-cased). -/
def emoji_target_pat : RE := seqR [chrR '🎯', .star sR, .grp (plusR numCC)]

/-- State of the target merge: the `targets` list and the `seen` set
(modelled as a list, only membership is used). -/
abbrev TgtSt := List (List Char) × List (List Char)

/-- Percentage add step (patterns 1 and 2 of `extract_targets`):
`if pct not in seen: targets.append(pct + "%"); seen.add(pct)`. -/
def addPct (st : TgtSt) (pct : List Char) : TgtSt :=
  if pct ∈ st.2 then st else (st.1 ++ [pct ++ ['%']], st.2 ++ [pct])

/-- Numeric add step (pattern 3 of `extract_targets`): clean, require
non-empty, not seen and float `> 0`. -/
def addNum (st : TgtSt) (m : List Char) : TgtSt :=
  let cleaned := clean_number m
  if cleaned ≠ [] ∧ cleaned ∉ st.2 ∧ pyFloatGtZero cleaned = true then
    (st.1 ++ [cleaned], st.2 ++ [cleaned])
  else st

/-- Numeric add step without the float check (pattern 4, `🎯` targets). -/
def addNumNoCheck (st : TgtSt) (m : List Char) : TgtSt :=
  let cleaned := clean_number m
  if cleaned ≠ [] ∧ cleaned ∉ st.2 then (st.1 ++ [cleaned], st.2 ++ [cleaned])
  else st

/-- The full (uncapped) target merge of `extract_targets`: patterns 1–4 in
order, deduplicated through the `seen` set. -/
def targetsBuild (normalized : List Char) : TgtSt :=
  let text_upper := upperL normalized
  let st0 : TgtSt := ([], [])
  let st1 := match searchG pct_group_pat text_upper with
    | some g => (reFindAllG pct_inner_pat g).foldl addPct st0
    | none => st0
  let st2 := match searchG single_pct_pat text_upper with
    | some g => addPct st1 g
    | none => st1
  let st3 := tp_patterns.foldl (fun st p => (reFindAllG p text_upper).foldl addNum st) st2
  (reFindAllG emoji_target_pat normalized).foldl addNumNoCheck st3

/-- `SignalParser.extract_targets`: the merge above, capped by
`targets[:6]`. -/
def extract_targets (normalized : List Char) : List (List Char) :=
  (targetsBuild normalized).1.take 6

/-- The `patterns` list of `extract_stop_loss`. -/
def sl_patterns : List RE := [
  seqR [altL [seqR [lit "STOP", .star sR, lit "LOSS"], lit "STOPLOSS"], .star sR,
        optR (anyOf "-:="), .star sR, .grp (plusR numCC)],
  seqR [.wb, lit "SL", .star sR, anyOf "-:=", .star sR, .grp (plusR numCC)],
  seqR [.wb, lit "STOP", .star sR, anyOf "-:=", .star sR, .grp (plusR numCC)],
  seqR [chrR '🛑', .star sR, .grp (plusR numCC)],
  seqR [chrR '⛔', .star sR, .grp (plusR numCC)]]

/-- Body of the `extract_stop_loss` loop: any non-empty cleaned match is
returned (no positivity check appears in the source). -/
def slTry (text_upper : List Char) (p : RE) : Option (List Char) :=
  match searchG p text_upper with
  | some g =>
    let cleaned := clean_number g
    if cleaned ≠ [] then some cleaned else none
  | none => none

/-- `SignalParser.extract_stop_loss`. -/
def extract_stop_loss (normalized : List Char) : List Char :=
  let text_upper := upperL normalized
  match sl_patterns.findSome? (slTry text_upper) with
  | some v => v
  | none => []

/-- The `patterns` list of `extract_leverage`. -/
def lev_patterns : List RE := [
  seqR [lit "LEVERAGE", .star sR, optR (anyOf "-:="), .star sR, .grp (plusR dR),
        .star sR, anyOf "Xx×"],
  seqR [lit "LEV", .star sR, optR (anyOf "-:="), .star sR, .grp (plusR dR),
        .star sR, anyOf "Xx×"],
  seqR [.grp (plusR dR), .star sR, anyOf "Xx×", .star sR,
        optR (seqR [optR (chrR '('), .star sR, altL [lit "CROSS", lit "ISOLATED"],
          .star sR, optR (chrR ')')])],
  seqR [.grp (plusR dR), anyOf "Xx×"]]

/-- Body of the `extract_leverage` loop: the digit group must parse to an
integer in `[1,125]`; the result carries a lowercase `x` suffix. -/
def levTry (text_upper : List Char) (p : RE) : Option (List Char) :=
  match searchG p text_upper with
  | some lev =>
    if pyIsDigit lev = true ∧ 1 ≤ natOfDigits lev ∧ natOfDigits lev ≤ 125
    then some (lev ++ ['x']) else none
  | none => none

/-- `SignalParser.extract_leverage`. -/
def extract_leverage (normalized : List Char) : List Char :=
  let text_upper := upperL normalized
  match lev_patterns.findSome? (levTry text_upper) with
  | some v => v
  | none => []

end SignalParser

/-! ## The `Signal` record (src/app.py, lines 122–169) -/

/-- The `Signal` dataclass.  `timestamp` is a `Nat` clock reading;
`direction` holds the enum's string value, as in the source. -/
structure Signal where
  id : List Char
  channel_id : Int
  channel_name : List Char
  message_id : Nat
  pair : List Char
  direction : List Char
  entry : List Char
  targets : List (List Char)
  stop_loss : List Char
  leverage : List Char
  raw_text : List Char
  timestamp : Nat
  is_vip : Bool
  status : List Char
  hit_targets : List Nat
deriving DecidableEq

namespace SignalParser

/-- The id format `f"{channel_id}:{message_id}"`. -/
def mkId (channel_id : Int) (message_id : Nat) : List Char :=
  intStr channel_id ++ ':' :: natStr message_id

/-- Python truthiness test `not pair` for an optional string. -/
def optFalsy : Option (List Char) → Bool
  | none => true
  | some s => s.isEmpty

/-- `SignalParser.parse`.  The wall-clock read `datetime.now(timezone.utc)`
is the explicit argument `now`; the log line has no modelled effect. -/
def parse (text : List Char) (channel_id : Int) (channel_name : List Char)
    (message_id : Nat) (is_vip : Bool) (now : Nat) : Option Signal :=
  if text = [] ∨ text.length < 10 then none
  else
    let normalized := normalize_text text
    let pair := extract_pair text normalized
    let direction := extract_direction text normalized
    let entry := extract_entry normalized
    let targets := extract_targets normalized
    let stop_loss := extract_stop_loss normalized
    let leverage := extract_leverage normalized
    if is_vip = false then
      if optFalsy pair = true then none
      else if direction = .UNKNOWN then none
      else if entry = "Market".toList ∧ targets = [] then none
      else some
        { id := mkId channel_id message_id
          channel_id := channel_id
          channel_name := channel_name
          message_id := message_id
          pair := pair.getD []
          direction := direction.value
          entry := entry
          targets := targets
          stop_loss := stop_loss
          leverage := leverage
          raw_text := text.take 2000
          timestamp := now
          is_vip := is_vip
          status := "ACTIVE".toList
          hit_targets := [] }
    else
      if optFalsy pair = true ∧ direction = .UNKNOWN then none
      else
        let pairV := if optFalsy pair = true then "UNKNOWN".toList else pair.getD []
        some
          { id := mkId channel_id message_id
            channel_id := channel_id
            channel_name := channel_name
            message_id := message_id
            pair := pairV
            direction := direction.value
            entry := entry
            targets := targets
            stop_loss := stop_loss
            leverage := leverage
            raw_text := text.take 2000
            timestamp := now
            is_vip := is_vip
            status := "ACTIVE".toList
            hit_targets := [] }

end SignalParser

/-! ## `DatabaseManager` (src/app.py, lines 538–733)

The two MongoDB collections become association lists keyed by the signal
id: the code maintains a unique index on `id` and addresses documents only
through `{"id": ...}` filters, so `update_one(..., upsert=True)` is
insert-or-replace-at-key and `delete_one` removes the (unique) entry with
the key.  `upsert_signal` writes `{"$set": signal.to_dict()}`: since every
document in `signals` is written exclusively through this call, setting
every field of the dictionary coincides with storing the `Signal` value
itself, which is what the model stores (`to_dict`'s string rendering of
the timestamp is a serialization detail with no observable effect here).
The tombstone collection stores `deleted_at` clock readings (`Nat`). -/

/-- Association-list lookup by id. -/
def alookup {α : Type} : List (List Char × α) → List Char → Option α
  | [], _ => none
  | (k, v) :: t, key => if k = key then some v else alookup t key

/-- `update_one({"id": key}, {"$set": ...}, upsert=True)` against a unique
index: replace the entry at `key`, or append a new one. -/
def aupsert {α : Type} : List (List Char × α) → List Char → α → List (List Char × α)
  | [], key, v => [(key, v)]
  | (k, w) :: t, key, v =>
    if k = key then (key, v) :: t else (k, w) :: aupsert t key v

/-- `delete_one({"id": key})` against a unique index (at most one entry
per key ever exists, so removing every entry with the key coincides with
removing the first). -/
def adelete {α : Type} : List (List Char × α) → List Char → List (List Char × α)
  | [], _ => []
  | (k, v) :: t, key => if k = key then adelete t key else (k, v) :: adelete t key

/-- The state of a `DatabaseManager`: the `_connected` flag, the `signals`
collection and the `deleted_signals` collection (id ↦ `deleted_at`). -/
structure DBState where
  connected : Bool
  signals : List (List Char × Signal)
  deleted : List (List Char × Nat)
deriving DecidableEq

namespace DatabaseManager

/-- `DatabaseManager.is_deleted`. -/
def is_deleted (s : DBState) (signal_id : List Char) : Bool :=
  if s.connected = false then false
  else (alookup s.deleted signal_id).isSome

/-- `DatabaseManager.mark_deleted`: upsert the tombstone (with the current
clock reading as `deleted_at`), remove any active record with the id, and
report success; reports failure when disconnected. -/
def mark_deleted (s : DBState) (signal_id : List Char) (now : Nat) : Bool × DBState :=
  if s.connected = false then (false, s)
  else
    (true, { s with
      deleted := aupsert s.deleted signal_id now
      signals := adelete s.signals signal_id })

/-- `DatabaseManager.upsert_signal`: reject when disconnected, reject when
the id is tombstoned (without touching the store), otherwise write the
full record at the id and report whether it was new. -/
def upsert_signal (s : DBState) (signal : Signal) : (Bool × Bool) × DBState :=
  if s.connected = false then ((false, false), s)
  else if is_deleted s signal.id then ((false, false), s)
  else
    let is_new := (alookup s.signals signal.id).isNone
    ((true, is_new), { s with signals := aupsert s.signals signal.id signal })

end DatabaseManager

/-- The store-mutating operations of the adapter contract, plus the
connect/close transitions of the `_connected` flag. -/
inductive DBOp where
  | up (signal : Signal)
  | del (signal_id : List Char) (now : Nat)
  | setConn (b : Bool)

/-- Apply one operation (discarding its return value). -/
def applyOp (s : DBState) : DBOp → DBState
  | .up signal => (DatabaseManager.upsert_signal s signal).2
  | .del signal_id now => (DatabaseManager.mark_deleted s signal_id now).2
  | .setConn b => { s with connected := b }

/-- Run a sequence of operations. -/
def runOps (s : DBState) (ops : List DBOp) : DBState := ops.foldl applyOp s

/-! ## `CryptoSignalScraper.on_message_deleted` (src/app.py, lines 1101–1111) -/

/-- One iteration of the `for msg_id in event.deleted_ids` loop of
`on_message_deleted`: build the record id `f"{chat_id}:{msg_id}"`, call
`mark_deleted`, and when it reports success record a `delete_signal`
broadcast carrying the id. -/
def onDelStep (chat_id : Int) (now : Nat) (st : DBState × List (List Char))
    (msg_id : Nat) : DBState × List (List Char) :=
  let signal_id := SignalParser.mkId chat_id msg_id
  let r := DatabaseManager.mark_deleted st.1 signal_id now
  (r.2, if r.1 then st.2 ++ [signal_id] else st.2)

/-- The `Deleted`-event handler.  The returned list collects the ids of
the `delete_signal` broadcasts, in order.  (`datetime.now` inside
`mark_deleted` is modelled by the single `now` argument; the stored
`deleted_at` value is never read by the program.) -/
def on_message_deleted (chat_id : Int) (deleted_ids : List Nat) (now : Nat)
    (s : DBState) : DBState × List (List Char) :=
  deleted_ids.foldl (onDelStep chat_id now) (s, [])

/-! ## Definitions used by the claim statements -/

/-- The tombstone invariant of claim C2: the id is tombstoned and absent
from the active store. -/
def TombInv (signal_id : List Char) (s : DBState) : Prop :=
  (alookup s.deleted signal_id).isSome = true ∧ alookup s.signals signal_id = none

/-- Every field of a `Signal` except the clock-derived `timestamp`; used to
state how much of `parse`'s output is a function of its arguments alone. -/
structure SignalCore where
  id : List Char
  channel_id : Int
  channel_name : List Char
  message_id : Nat
  pair : List Char
  direction : List Char
  entry : List Char
  targets : List (List Char)
  stop_loss : List Char
  leverage : List Char
  raw_text : List Char
  is_vip : Bool
  status : List Char
  hit_targets : List Nat
deriving DecidableEq

/-- Forget the `timestamp` field. -/
def Signal.core (s : Signal) : SignalCore :=
  { id := s.id, channel_id := s.channel_id, channel_name := s.channel_name
    message_id := s.message_id, pair := s.pair, direction := s.direction
    entry := s.entry, targets := s.targets, stop_loss := s.stop_loss
    leverage := s.leverage, raw_text := s.raw_text, is_vip := s.is_vip
    status := s.status, hit_targets := s.hit_targets }

/-- The signal `parse` produces for the text `"#BTC LONG TP - 5"` from
source 9, message 4, untrusted, at clock reading 0 (used as a witness). -/
def c7WitnessSig : Signal :=
  { id := "9:4".toList, channel_id := 9, channel_name := "C".toList
    message_id := 4, pair := "BTCUSDT".toList, direction := "LONG".toList
    entry := "Market".toList, targets := ["5".toList], stop_loss := []
    leverage := [], raw_text := "#BTC LONG TP - 5".toList, timestamp := 0
    is_vip := false, status := "ACTIVE".toList, hit_targets := [] }

/-- A concrete signal used by witnesses. -/
def sampleSignal : Signal :=
  { id := "X".toList, channel_id := 7, channel_name := "C".toList
    message_id := 1, pair := "BTCUSDT".toList, direction := "LONG".toList
    entry := "Market".toList, targets := ["51000".toList], stop_loss := []
    leverage := [], raw_text := [], timestamp := 0, is_vip := false
    status := "ACTIVE".toList, hit_targets := [] }

/-- The min of two optional offsets (absent = no occurrence). -/
def minOpt : Option Nat → Option Nat → Option Nat
  | none, b => b
  | some a, none => some a
  | some a, some b => some (min a b)

/-- The offset of the first occurrence of any pattern of the list in `s` —
the "first keyword occurrence" notion of claim C4. -/
def firstKeywordPos (pats : List RE) (s : List Char) : Option Nat :=
  pats.foldr (fun p acc => minOpt ((reSearch p s).map (fun x => x.1)) acc) none

/-- Does the raw text contain any of the eight directional emoji glyphs
checked by `extract_direction`? -/
def hasDirEmoji (t : List Char) : Prop :=
  ("🟢".toList <:+: t) ∨ ("📈".toList <:+: t) ∨ ("⬆️".toList <:+: t)
    ∨ ("🔼".toList <:+: t) ∨ ("🔴".toList <:+: t) ∨ ("📉".toList <:+: t)
    ∨ ("⬇️".toList <:+: t) ∨ ("🔽".toList <:+: t)

instance (t : List Char) : Decidable (hasDirEmoji t) := by
  unfold hasDirEmoji
  infer_instance

/-- Some long-indicating keyword pattern matches. -/
def anyLongKw (text_upper : List Char) : Bool :=
  SignalParser.long_patterns.any (fun p => reTest p text_upper)

/-- Some short-indicating keyword pattern matches. -/
def anyShortKw (text_upper : List Char) : Bool :=
  SignalParser.short_patterns.any (fun p => reTest p text_upper)

/-- The uncapped target merge (the list `extract_targets` truncates). -/
def extractTargetsAll (normalized : List Char) : List (List Char) :=
  (SignalParser.targetsBuild normalized).1

/-- The deduplication key a target entry contributes to the `seen` set: a
percentage entry `p%` was recorded in `seen` as `p`, a plain numeric entry
as itself. -/
def keyOf (t : List Char) : List Char :=
  if t.getLast? = some '%' then t.dropLast else t

/-- Invariant of the target merge: the accumulated list is
duplicate-free, and every accumulated entry's key has been recorded in the
`seen` set. -/
def TgtInv (st : SignalParser.TgtSt) : Prop :=
  st.1.Nodup ∧ ∀ t ∈ st.1, keyOf t ∈ st.2

/-!
# Theorems

First the shared helper lemmas, then one theorem per claim (with its
witness or counterexample where required).
-/

/-! ## Association-list lemmas -/

theorem alookup_aupsert_self {α : Type} (l : List (List Char × α)) (k : List Char)
    (v : α) : alookup (aupsert l k v) k = some v := by
  induction l with
  | nil => simp [aupsert, alookup]
  | cons p t ih =>
    obtain ⟨a, b⟩ := p
    by_cases h : a = k
    · simp [aupsert, h, alookup]
    · simp [aupsert, h, alookup, ih]

theorem alookup_aupsert_ne {α : Type} (l : List (List Char × α)) (k k' : List Char)
    (v : α) (h : k ≠ k') : alookup (aupsert l k v) k' = alookup l k' := by
  induction l with
  | nil => simp [aupsert, alookup, h]
  | cons p t ih =>
    obtain ⟨a, b⟩ := p
    by_cases ha : a = k
    · subst ha
      simp [aupsert, alookup, h]
    · by_cases ha' : a = k'
      · subst ha'
        simp [aupsert, ha, alookup]
      · simp [aupsert, ha, alookup, ha', ih]

theorem alookup_adelete_self {α : Type} (l : List (List Char × α)) (k : List Char) :
    alookup (adelete l k) k = none := by
  induction l with
  | nil => simp [adelete, alookup]
  | cons p t ih =>
    obtain ⟨a, b⟩ := p
    by_cases h : a = k
    · simp [adelete, h, ih]
    · simp [adelete, h, alookup, ih]

theorem alookup_adelete_ne {α : Type} (l : List (List Char × α)) (k k' : List Char)
    (h : k ≠ k') : alookup (adelete l k) k' = alookup l k' := by
  induction l with
  | nil => simp [adelete]
  | cons p t ih =>
    obtain ⟨a, b⟩ := p
    by_cases ha : a = k
    · subst ha
      simp [adelete, alookup, h, ih]
    · simp [adelete, ha, alookup, ih]

theorem adelete_adelete {α : Type} (l : List (List Char × α)) (k : List Char) :
    adelete (adelete l k) k = adelete l k := by
  induction l with
  | nil => simp [adelete]
  | cons p t ih =>
    obtain ⟨a, b⟩ := p
    by_cases h : a = k
    · simp [adelete, h, ih]
    · simp [adelete, h, ih]

/-! ## Database-adapter lemmas -/

theorem mark_deleted_tombInv (s : DBState) (signal_id : List Char) (now : Nat)
    (h : (DatabaseManager.mark_deleted s signal_id now).1 = true) :
    TombInv signal_id (DatabaseManager.mark_deleted s signal_id now).2 := by
  by_cases hc : s.connected = false
  · simp [DatabaseManager.mark_deleted, hc] at h
  · simp [DatabaseManager.mark_deleted, hc, TombInv, alookup_aupsert_self,
      alookup_adelete_self]

theorem mark_deleted_connected (s : DBState) (signal_id : List Char) (now : Nat)
    (h : s.connected = true) :
    (DatabaseManager.mark_deleted s signal_id now).1 = true ∧
    (DatabaseManager.mark_deleted s signal_id now).2.connected = true := by
  simp [DatabaseManager.mark_deleted, h]

theorem upsert_rejected_of_tombInv (s : DBState) (sig : Signal)
    (h : TombInv sig.id s) :
    DatabaseManager.upsert_signal s sig = ((false, false), s) := by
  by_cases hc : s.connected = false
  · simp [DatabaseManager.upsert_signal, hc]
  · have hd : DatabaseManager.is_deleted s sig.id = true := by
      simp [DatabaseManager.is_deleted, hc, h.1]
    simp [DatabaseManager.upsert_signal, hc, hd]

theorem tombInv_applyOp (signal_id : List Char) (s : DBState) (op : DBOp)
    (h : TombInv signal_id s) : TombInv signal_id (applyOp s op) := by
  obtain ⟨h1, h2⟩ := h
  cases op with
  | up sig =>
    by_cases hc : s.connected = false
    · simpa [applyOp, DatabaseManager.upsert_signal, hc, TombInv] using ⟨h1, h2⟩
    · by_cases hd : DatabaseManager.is_deleted s sig.id = true
      · simpa [applyOp, DatabaseManager.upsert_signal, hc, hd, TombInv] using ⟨h1, h2⟩
      · have hne : sig.id ≠ signal_id := by
          intro he
          apply hd
          simp [DatabaseManager.is_deleted, hc, he, h1]
        refine ⟨?_, ?_⟩
        · simpa [applyOp, DatabaseManager.upsert_signal, hc, hd] using h1
        · simpa [applyOp, DatabaseManager.upsert_signal, hc, hd,
            alookup_aupsert_ne _ _ _ _ hne] using h2
  | del sid' now' =>
    by_cases hc : s.connected = false
    · simpa [applyOp, DatabaseManager.mark_deleted, hc, TombInv] using ⟨h1, h2⟩
    · refine ⟨?_, ?_⟩
      · by_cases hk : sid' = signal_id
        · subst hk
          simp [applyOp, DatabaseManager.mark_deleted, hc, alookup_aupsert_self]
        · simpa [applyOp, DatabaseManager.mark_deleted, hc,
            alookup_aupsert_ne _ _ _ _ hk] using h1
      · by_cases hk : sid' = signal_id
        · subst hk
          simp [applyOp, DatabaseManager.mark_deleted, hc, alookup_adelete_self]
        · simpa [applyOp, DatabaseManager.mark_deleted, hc,
            alookup_adelete_ne _ _ _ hk] using h2
  | setConn b =>
    exact ⟨h1, h2⟩

theorem tombInv_runOps (signal_id : List Char) (ops : List DBOp) (s : DBState)
    (h : TombInv signal_id s) : TombInv signal_id (runOps s ops) := by
  induction ops generalizing s with
  | nil => exact h
  | cons op rest ih => exact ih _ (tombInv_applyOp _ _ _ h)

/-! ## Claim C2 -/

/-- **C2** (confirmed).  Once `mark_deleted(id)` has succeeded, then after
any further sequence of adapter operations (upserts of arbitrary signals,
further deletions, connect/close transitions), an upsert of a signal with
that id returns `(accepted = false, _)` and leaves the state untouched,
and the active store holds no record with that id.  (The traces range
over the adapter contract's mutating operations; the separate admin
`reset_signals` surface, which wipes both collections wholesale, is
outside the adapter contract and the claim.) -/
theorem C2_tombstone_exclusive (s : DBState) (signal_id : List Char) (now : Nat)
    (ops : List DBOp) (sig : Signal)
    (hdel : (DatabaseManager.mark_deleted s signal_id now).1 = true)
    (hid : sig.id = signal_id) :
    (DatabaseManager.upsert_signal
        (runOps (DatabaseManager.mark_deleted s signal_id now).2 ops) sig).1.1 = false ∧
    (DatabaseManager.upsert_signal
        (runOps (DatabaseManager.mark_deleted s signal_id now).2 ops) sig).2 =
      runOps (DatabaseManager.mark_deleted s signal_id now).2 ops ∧
    alookup (runOps (DatabaseManager.mark_deleted s signal_id now).2 ops).signals
      signal_id = none := by
  subst hid
  have hinv : TombInv sig.id (runOps (DatabaseManager.mark_deleted s sig.id now).2 ops) :=
    tombInv_runOps _ _ _ (mark_deleted_tombInv _ _ _ hdel)
  have hrej := upsert_rejected_of_tombInv _ sig hinv
  exact ⟨by rw [hrej], by rw [hrej], hinv.2⟩

/-- Witness for C2: a concrete state, a successful tombstone, one
intervening upsert of the same signal, then the rejected upsert. -/
theorem C2_tombstone_exclusive_witness :
    ((DatabaseManager.mark_deleted ⟨true, [], []⟩ "X".toList 5).1 = true ∧
      sampleSignal.id = "X".toList) ∧
    (DatabaseManager.upsert_signal
        (runOps (DatabaseManager.mark_deleted ⟨true, [], []⟩ "X".toList 5).2
          [DBOp.up sampleSignal]) sampleSignal).1.1 = false ∧
    (DatabaseManager.upsert_signal
        (runOps (DatabaseManager.mark_deleted ⟨true, [], []⟩ "X".toList 5).2
          [DBOp.up sampleSignal]) sampleSignal).2 =
      runOps (DatabaseManager.mark_deleted ⟨true, [], []⟩ "X".toList 5).2
        [DBOp.up sampleSignal] ∧
    alookup (runOps (DatabaseManager.mark_deleted ⟨true, [], []⟩ "X".toList 5).2
        [DBOp.up sampleSignal]).signals "X".toList = none :=
  ⟨⟨by decide, by decide⟩,
    C2_tombstone_exclusive ⟨true, [], []⟩ "X".toList 5 [DBOp.up sampleSignal]
      sampleSignal (by decide) (by decide)⟩

/-! ## Claim C3 -/

/-- **C3** (corrected), counterexample: in a disconnected store state the
id of `sampleSignal` is neither tombstoned nor active, yet
`upsert_signal` returns `(false, false)`, not `(true, true)` as the claim
requires. -/
theorem C3_idempotent_upsert_counterexample :
    alookup (DBState.mk false [] []).deleted sampleSignal.id = none ∧
    alookup (DBState.mk false [] []).signals sampleSignal.id = none ∧
    (DatabaseManager.upsert_signal (DBState.mk false [] []) sampleSignal).1 ≠ (true, true) := by
  decide

/-- **C3** (corrected, amended with the connectivity precondition): when
the store is connected and `S.id` is neither tombstoned nor active,
`upsert(S)` then `upsert(S)` return `(true, true)` then `(true, false)`,
and after each call the stored record keyed by `S.id` is the full
replacement `S` — identical after both calls. -/
theorem C3_idempotent_upsert_amended (s : DBState) (S : Signal)
    (hconn : s.connected = true)
    (htomb : alookup s.deleted S.id = none)
    (hact : alookup s.signals S.id = none) :
    (DatabaseManager.upsert_signal s S).1 = (true, true) ∧
    (DatabaseManager.upsert_signal (DatabaseManager.upsert_signal s S).2 S).1
      = (true, false) ∧
    alookup (DatabaseManager.upsert_signal s S).2.signals S.id = some S ∧
    alookup (DatabaseManager.upsert_signal
        (DatabaseManager.upsert_signal s S).2 S).2.signals S.id = some S := by
  simp [DatabaseManager.upsert_signal, DatabaseManager.is_deleted, hconn, htomb, hact,
    alookup_aupsert_self]

/-- Witness for C3 (amended): the empty connected store and
`sampleSignal`. -/
theorem C3_idempotent_upsert_witness :
    ((DBState.mk true [] []).connected = true ∧
      alookup (DBState.mk true [] []).deleted sampleSignal.id = none ∧
      alookup (DBState.mk true [] []).signals sampleSignal.id = none) ∧
    (DatabaseManager.upsert_signal ⟨true, [], []⟩ sampleSignal).1 = (true, true) ∧
    (DatabaseManager.upsert_signal
        (DatabaseManager.upsert_signal ⟨true, [], []⟩ sampleSignal).2 sampleSignal).1
      = (true, false) ∧
    alookup (DatabaseManager.upsert_signal ⟨true, [], []⟩ sampleSignal).2.signals
      sampleSignal.id = some sampleSignal ∧
    alookup (DatabaseManager.upsert_signal
        (DatabaseManager.upsert_signal ⟨true, [], []⟩ sampleSignal).2
          sampleSignal).2.signals sampleSignal.id = some sampleSignal :=
  ⟨⟨by decide, by decide, by decide⟩,
    C3_idempotent_upsert_amended ⟨true, [], []⟩ sampleSignal (by decide) (by decide)
      (by decide)⟩

/-! ## Claim C9 -/

/-- Generalized loop lemma for `on_message_deleted`: on a connected store
every iteration's `mark_deleted` succeeds, so every computed id is
broadcast (repeats included), and the store stays connected. -/
theorem onDel_foldl (chat_id : Int) (now : Nat) (ids : List Nat) :
    ∀ (s : DBState) (acc : List (List Char)), s.connected = true →
    (ids.foldl (onDelStep chat_id now) (s, acc)).2
        = acc ++ ids.map (SignalParser.mkId chat_id) ∧
    (ids.foldl (onDelStep chat_id now) (s, acc)).1.connected = true := by
  induction ids with
  | nil =>
    intro s acc h
    simpa using h
  | cons i rest ih =>
    intro s acc h
    have hm := mark_deleted_connected s (SignalParser.mkId chat_id i) now h
    have hstep : onDelStep chat_id now (s, acc) i
        = ((DatabaseManager.mark_deleted s (SignalParser.mkId chat_id i) now).2,
           acc ++ [SignalParser.mkId chat_id i]) := by
      simp [onDelStep, hm.1]
    have hrec := ih (DatabaseManager.mark_deleted s (SignalParser.mkId chat_id i) now).2
      (acc ++ [SignalParser.mkId chat_id i]) hm.2
    simp only [List.foldl_cons, hstep]
    exact ⟨by rw [hrec.1]; simp, hrec.2⟩

/-- **C9** (corrected), counterexample: after a `Deleted` event for
message 7 of source 5 the id is tombstoned, yet processing the same
`Deleted` event again broadcasts `delete_signal` for the id a second time
(because `mark_deleted` reports success regardless of whether the
tombstone is new). -/
theorem C9_delete_rebroadcast_counterexample :
    (alookup (on_message_deleted 5 [7] 0 ⟨true, [], []⟩).1.deleted
      (SignalParser.mkId 5 7)).isSome = true ∧
    (on_message_deleted 5 [7] 1 (on_message_deleted 5 [7] 0 ⟨true, [], []⟩).1).2
      = [SignalParser.mkId 5 7] := by
  decide

/-- **C9** (corrected, amended): on a connected store the `Deleted`
handler broadcasts a `delete_signal` event for *every* deleted message id
— whenever `mark_deleted` succeeds, not only when the tombstone is new —
and `mark_deleted` is safe to repeat for the same id: the repeated call
also succeeds, leaves the active store as after the first call, and keeps
the id tombstoned. -/
theorem C9_delete_rebroadcast_amended :
    (∀ (chat_id : Int) (ids : List Nat) (now : Nat) (s : DBState),
      s.connected = true →
      (on_message_deleted chat_id ids now s).2 = ids.map (SignalParser.mkId chat_id)) ∧
    (∀ (signal_id : List Char) (n1 n2 : Nat) (s : DBState), s.connected = true →
      (DatabaseManager.mark_deleted s signal_id n1).1 = true ∧
      (DatabaseManager.mark_deleted
        (DatabaseManager.mark_deleted s signal_id n1).2 signal_id n2).1 = true ∧
      (DatabaseManager.mark_deleted
        (DatabaseManager.mark_deleted s signal_id n1).2 signal_id n2).2.signals
        = (DatabaseManager.mark_deleted s signal_id n1).2.signals ∧
      (alookup (DatabaseManager.mark_deleted
        (DatabaseManager.mark_deleted s signal_id n1).2 signal_id n2).2.deleted
        signal_id).isSome = true) := by
  constructor
  · intro chat_id ids now s h
    exact (onDel_foldl chat_id now ids s [] h).1
  · intro signal_id n1 n2 s h
    simp [DatabaseManager.mark_deleted, h, adelete_adelete, alookup_aupsert_self]

/-- Witness for C9 (amended): a batch of two deletions on a connected
store, and a repeated tombstone of a fixed id. -/
theorem C9_delete_rebroadcast_witness :
    (DBState.mk true [] []).connected = true ∧
    (on_message_deleted 3 [1, 2] 0 ⟨true, [], []⟩).2
      = [1, 2].map (SignalParser.mkId 3) ∧
    (DatabaseManager.mark_deleted ⟨true, [], []⟩ "Y".toList 0).1 = true ∧
    (DatabaseManager.mark_deleted
      (DatabaseManager.mark_deleted ⟨true, [], []⟩ "Y".toList 0).2 "Y".toList 1).1 = true :=
  ⟨by decide, C9_delete_rebroadcast_amended.1 3 [1, 2] 0 ⟨true, [], []⟩ (by decide),
    (C9_delete_rebroadcast_amended.2 "Y".toList 0 1 ⟨true, [], []⟩ (by decide)).1,
    (C9_delete_rebroadcast_amended.2 "Y".toList 0 1 ⟨true, [], []⟩ (by decide)).2.1⟩

/-! ## Claim C10 -/

/-- **C10** (confirmed).  Empty or shorter-than-10-character input is
rejected by `parse` before any extraction, for every source, trusted flag
and clock reading. -/
theorem C10_min_length_gate (text : List Char) (channel_id : Int)
    (channel_name : List Char) (message_id : Nat) (is_vip : Bool) (now : Nat)
    (h : text.length < 10) :
    SignalParser.parse text channel_id channel_name message_id is_vip now = none := by
  unfold SignalParser.parse
  rw [if_pos (Or.inr h)]

/-- Witness for C10: a 9-character signal-like text is rejected for both
trust levels. -/
theorem C10_min_length_gate_witness :
    ("#BTC LONG".toList.length < 10) ∧
    SignalParser.parse "#BTC LONG".toList 1 "C".toList 2 false 0 = none ∧
    SignalParser.parse "#BTC LONG".toList 1 "C".toList 2 true 0 = none :=
  ⟨by decide, C10_min_length_gate _ 1 "C".toList 2 false 0 (by decide),
    C10_min_length_gate _ 1 "C".toList 2 true 0 (by decide)⟩

/-! ## Claim C5 -/

/-- **C5** (corrected), counterexample: `parse` reads the clock for the
`timestamp` field, so two calls with identical arguments but different
clock readings return different `Signal` values (they differ exactly in
`timestamp`). -/
theorem C5_parse_clock_counterexample :
    SignalParser.parse "🟢 #BTC ABC".toList 1 "C".toList 2 true 0 ≠
    SignalParser.parse "🟢 #BTC ABC".toList 1 "C".toList 2 true 1 := by
  decide

/-- **C5** (corrected, amended): `parse` is a total function of its
arguments and the clock reading; with the clock fixed it is deterministic,
and every field of the result except `timestamp` is a function of
`(text, source_id, source_name, message_id, is_trusted)` alone — the clock
reading influences nothing but the `timestamp` field. -/
theorem C5_parse_deterministic_mod_timestamp (text : List Char) (channel_id : Int)
    (channel_name : List Char) (message_id : Nat) (is_vip : Bool) (n1 n2 : Nat) :
    (SignalParser.parse text channel_id channel_name message_id is_vip n1).map Signal.core
      = (SignalParser.parse text channel_id channel_name message_id is_vip n2).map
          Signal.core := by
  have h1 : ∀ (C : Prop) (_ : Decidable C) (r1 r2 : Signal), r1.core = r2.core →
      Option.map Signal.core (if C then none else some r1)
        = Option.map Signal.core (if C then none else some r2) := by
    intro C inst r1 r2 h
    by_cases hC : C <;> simp [hC, h]
  have h3 : ∀ (A B C : Prop) (_ : Decidable A) (_ : Decidable B) (_ : Decidable C)
      (r1 r2 : Signal), r1.core = r2.core →
      Option.map Signal.core (if A then none else if B then none else
          if C then none else some r1)
        = Option.map Signal.core (if A then none else if B then none else
          if C then none else some r2) := by
    intro A B C iA iB iC r1 r2 h
    by_cases hA : A <;> by_cases hB : B <;> by_cases hC : C <;> simp [hA, hB, hC, h]
  by_cases h0 : text = [] ∨ text.length < 10
  · simp [SignalParser.parse, h0]
  · by_cases hv : is_vip = false
    · simp only [SignalParser.parse, if_neg h0, if_pos hv]
      exact h3 _ _ _ _ _ _ _ _ rfl
    · simp only [SignalParser.parse, if_neg h0, if_neg hv]
      exact h1 _ _ _ _ rfl

/-! ## Matcher lemmas

Only three facts about `mrun` are needed: match end offsets never precede
the start offset; a literal consumes exactly itself; and a match of
`\b(<base><literal>)\b` captures a span whose text ends in the literal. -/

theorem mrun_mono : ∀ (f : Nat) (r : RE) (s : List Char) (pos : Nat)
    (cap : Option (Nat × Nat)) (x : Nat × Option (Nat × Nat)),
    x ∈ mrun f r s pos cap → pos ≤ x.1 := by
  intro f
  induction f with
  | zero =>
    intro r s pos cap x hx
    simp [mrun] at hx
  | succ f ih =>
    intro r s pos cap x hx
    cases r with
    | eps =>
      simp only [mrun, List.mem_singleton] at hx
      rw [hx]
    | cls p =>
      rcases hg : s[pos]? with _ | c
      · simp only [mrun, hg] at hx
        simp at hx
      · simp only [mrun, hg] at hx
        by_cases hc : p c
        · simp [hc] at hx
          rw [hx]
          simp
        · simp [hc] at hx
    | cat a b =>
      simp only [mrun, List.mem_flatMap] at hx
      obtain ⟨y, hy, hxy⟩ := hx
      exact le_trans (ih _ _ _ _ _ hy) (ih _ _ _ _ _ hxy)
    | alt a b =>
      simp only [mrun, List.mem_append] at hx
      rcases hx with hx | hx
      · exact ih _ _ _ _ _ hx
      · exact ih _ _ _ _ _ hx
    | star r =>
      simp only [mrun, List.mem_append, List.mem_flatMap, List.mem_singleton] at hx
      rcases hx with ⟨y, hy, hxy⟩ | hx
      · by_cases hlt : pos < y.1
        · rw [if_pos hlt] at hxy
          exact le_trans (le_of_lt hlt) (ih _ _ _ _ _ hxy)
        · rw [if_neg hlt] at hxy
          simp at hxy
      · rw [hx]
    | grp r =>
      simp only [mrun, List.mem_map] at hx
      obtain ⟨y, hy, hxy⟩ := hx
      rw [← hxy]
      simpa using ih _ _ _ _ _ hy
    | wb =>
      by_cases hb : boundaryAt s pos
      · simp only [mrun, if_pos hb, List.mem_singleton] at hx
        rw [hx]
      · simp only [mrun, if_neg hb] at hx
        simp at hx
    | nla r =>
      by_cases hb : (mrun f r s pos none).isEmpty
      · simp only [mrun, if_pos hb, List.mem_singleton] at hx
        rw [hx]
      · simp only [mrun, if_neg hb] at hx
        simp at hx

theorem drop_of_getElem? (s : List Char) (pos : Nat) (c : Char)
    (h : s[pos]? = some c) : s.drop pos = c :: s.drop (pos + 1) := by
  obtain ⟨hlt, he⟩ := List.getElem?_eq_some.mp h
  rw [List.drop_eq_getElem_cons hlt, he]

theorem listSub_split (s : List Char) (a b c : Nat) (h1 : a ≤ b) (h2 : b ≤ c) :
    listSub s a c = listSub s a b ++ listSub s b c := by
  unfold listSub
  rw [show c - a = (b - a) + (c - b) by omega, List.take_add]
  congr 1
  rw [List.drop_drop, show a + (b - a) = b by omega]

theorem mrun_strL : ∀ (cs : List Char) (f : Nat) (s : List Char) (pos : Nat)
    (cap : Option (Nat × Nat)) (x : Nat × Option (Nat × Nat)),
    x ∈ mrun f (strL cs) s pos cap →
    x.1 = pos + cs.length ∧ x.2 = cap ∧ listSub s pos x.1 = cs := by
  intro cs
  induction cs with
  | nil =>
    intro f s pos cap x hx
    cases f with
    | zero => simp [mrun] at hx
    | succ f =>
      simp only [strL, mrun, List.mem_singleton] at hx
      rw [hx]
      simp [listSub]
  | cons c cs ih =>
    intro f s pos cap x hx
    cases f with
    | zero => simp [mrun] at hx
    | succ f =>
      simp only [strL, mrun, List.mem_flatMap] at hx
      obtain ⟨y, hy, hxy⟩ := hx
      cases f with
      | zero => simp [mrun] at hy
      | succ f' =>
        rcases hg : s[pos]? with _ | c'
        · simp only [chrR, mrun, hg] at hy
          simp at hy
        · simp only [chrR, mrun, hg] at hy
          by_cases hc : c' = c
          · subst hc
            simp at hy
            rw [hy] at hxy
            have hxy' : x ∈ mrun (f' + 1) (strL cs) s (pos + 1) cap := hxy
            have hrec := ih _ _ _ _ _ hxy'
            have hx1 : x.1 = pos + 1 + cs.length := hrec.1
            refine ⟨by simp only [List.length_cons]; omega, hrec.2.1, ?_⟩
            unfold listSub
            rw [drop_of_getElem? s pos c' hg]
            rw [show x.1 - pos = cs.length + 1 by omega, List.take_succ_cons]
            have hsub := hrec.2.2
            unfold listSub at hsub
            rw [show x.1 - (pos + 1) = cs.length by omega] at hsub
            rw [hsub]
          · simp [hc] at hy

theorem mrun_grp_cat_lit (base : RE) (l : List Char) :
    ∀ (f : Nat) (s : List Char) (pos : Nat) (cap : Option (Nat × Nat))
    (x : Nat × Option (Nat × Nat)),
    x ∈ mrun f (.grp (.cat base (strL l))) s pos cap →
    x.2 = some (pos, x.1) ∧ l <:+ listSub s pos x.1 := by
  intro f s pos cap x hx
  cases f with
  | zero => simp [mrun] at hx
  | succ f =>
    simp only [mrun, List.mem_map] at hx
    obtain ⟨y, hy, hxy⟩ := hx
    cases f with
    | zero => simp [mrun] at hy
    | succ f' =>
      simp only [mrun, List.mem_flatMap] at hy
      obtain ⟨z, hz, hzy⟩ := hy
      have hmono : pos ≤ z.1 := mrun_mono _ _ _ _ _ _ hz
      have hlit := mrun_strL l _ _ _ _ _ hzy
      have hz1 : z.1 ≤ y.1 := by
        rw [hlit.1]
        omega
      refine ⟨by rw [← hxy], ?_⟩
      rw [← hxy]
      rw [listSub_split s pos z.1 y.1 hmono hz1, ← hlit.2.2]
      exact List.suffix_append _ _

theorem mrun_pat5_shape (base : RE) (l : List Char) :
    ∀ (f : Nat) (s : List Char) (pos : Nat) (cap : Option (Nat × Nat))
    (x : Nat × Option (Nat × Nat)),
    x ∈ mrun f (.cat .wb (.cat (.grp (.cat base (strL l))) .wb)) s pos cap →
    ∃ a b, x.2 = some (a, b) ∧ l <:+ listSub s a b := by
  intro f s pos cap x hx
  cases f with
  | zero => simp [mrun] at hx
  | succ f =>
    simp only [mrun, List.mem_flatMap] at hx
    obtain ⟨y, hy, hxy⟩ := hx
    cases f with
    | zero => simp [mrun] at hy
    | succ f' =>
      by_cases hb : boundaryAt s pos
      · simp only [mrun, if_pos hb, List.mem_singleton] at hy
        rw [hy] at hxy
        simp only [mrun, List.mem_flatMap] at hxy
        obtain ⟨z, hz, hzx⟩ := hxy
        have hg := mrun_grp_cat_lit base l _ _ _ _ _ hz
        cases f' with
        | zero => simp [mrun] at hzx
        | succ f'' =>
          by_cases hb2 : boundaryAt s z.1
          · simp only [mrun, if_pos hb2, List.mem_singleton] at hzx
            refine ⟨pos, z.1, ?_, hg.2⟩
            rw [hzx]
            exact hg.1
          · simp only [mrun, if_neg hb2] at hzx
            simp at hzx
      · simp only [mrun, if_neg hb] at hy
        simp at hy

/-- The group captured by pattern 5 (`\b([A-Z0-9]{2,10}USDT)\b`) ends in
`USDT`. -/
theorem searchG_pairPat5 (s g : List Char)
    (h : searchG SignalParser.pairPat5 s = some g) : "USDT".toList <:+ g := by
  unfold searchG at h
  rcases hs : reSearch SignalParser.pairPat5 s with _ | ⟨i, e, cap⟩
  · rw [hs] at h
    cases h
  · rw [hs] at h
    rcases cap with _ | ⟨a, b⟩
    · simp at h
    · simp only [Option.some.injEq] at h
      unfold reSearch searchFrom at hs
      obtain ⟨j, _, hjeq⟩ := List.exists_of_findSome?_eq_some hs
      by_cases hle : 0 + j ≤ s.length
      · rw [if_pos hle] at hjeq
        rcases hm : mrun FUEL SignalParser.pairPat5 s (0 + j) none with _ | ⟨x, rest⟩
        · rw [hm] at hjeq
          simp at hjeq
        · rw [hm] at hjeq
          simp only [Option.some.injEq, Prod.mk.injEq] at hjeq
          have hxmem : x ∈ mrun FUEL SignalParser.pairPat5 s (0 + j) none := by
            rw [hm]
            exact List.mem_cons_self _ _
          obtain ⟨a', b', hcap, hsuf⟩ :=
            mrun_pat5_shape _ _ _ _ _ _ _ hxmem
          have hx2 : x.2 = some (a, b) := hjeq.2.2
          rw [hx2] at hcap
          simp only [Option.some.injEq, Prod.mk.injEq] at hcap
          rw [← h, hcap.1, hcap.2]
          exact hsuf
      · rw [if_neg hle] at hjeq
        simp at hjeq

/-! ## `pyReplace` and suffix lemmas -/

theorem pyReplaceGo_self_or_infix (pat rep : List Char) :
    ∀ (fuel : Nat) (s : List Char),
      pyReplaceGo pat rep fuel s = s ∨ rep <:+: pyReplaceGo pat rep fuel s := by
  intro fuel
  induction fuel with
  | zero =>
    intro s
    left
    rfl
  | succ fuel ih =>
    intro s
    cases s with
    | nil =>
      left
      rfl
    | cons c rest =>
      by_cases h : pat ≠ [] ∧ pat.isPrefixOf (c :: rest)
      · right
        simp only [pyReplaceGo, if_pos h]
        exact (List.prefix_append rep _).isInfix
      · rcases ih rest with he | hi
        · left
          simp only [pyReplaceGo, if_neg h, he]
        · right
          simp only [pyReplaceGo, if_neg h]
          exact List.infix_cons hi

theorem pyReplace_self_or_infix (pat rep s : List Char) :
    pyReplace pat rep s = s ∨ rep <:+: pyReplace pat rep s :=
  pyReplaceGo_self_or_infix pat rep s.length s

theorem suffix_ne_nil {t p : List Char} (h : t <:+ p) (ht : t ≠ []) : p ≠ [] := by
  intro hp
  rw [hp] at h
  exact ht (List.suffix_nil.mp h)

theorem infix_ne_nil {t p : List Char} (h : t <:+: p) (ht : t ≠ []) : p ≠ [] := by
  intro hp
  rw [hp] at h
  exact ht (List.infix_nil.mp h)

/-- Properties of the pattern-1 post-processing: the result is never the
`UNKNOWN` sentinel and never empty (it either still carries one of the
three quote suffixes, or contains the replacement text `USDT`). -/
theorem pat1_result_props (g : List Char) :
    pyReplace "BUSD".toList "USDT".toList
      (if ("USDT".toList <:+ g) ∨ ("BUSD".toList <:+ g) ∨ ("USD".toList <:+ g)
        then g else g ++ "USDT".toList) ≠ "UNKNOWN".toList ∧
    pyReplace "BUSD".toList "USDT".toList
      (if ("USDT".toList <:+ g) ∨ ("BUSD".toList <:+ g) ∨ ("USD".toList <:+ g)
        then g else g ++ "USDT".toList) ≠ [] := by
  by_cases hc : ("USDT".toList <:+ g) ∨ ("BUSD".toList <:+ g) ∨ ("USD".toList <:+ g)
  · rw [if_pos hc]
    rcases pyReplace_self_or_infix "BUSD".toList "USDT".toList g with he | hi
    · rw [he]
      constructor
      · intro hu
        rw [hu] at hc
        rcases hc with hc | hc | hc
        · exact absurd hc (by decide)
        · exact absurd hc (by decide)
        · exact absurd hc (by decide)
      · intro hnil
        rw [hnil] at hc
        rcases hc with hc | hc | hc
        · exact absurd (List.suffix_nil.mp hc) (by decide)
        · exact absurd (List.suffix_nil.mp hc) (by decide)
        · exact absurd (List.suffix_nil.mp hc) (by decide)
    · constructor
      · intro hu
        rw [hu] at hi
        exact absurd hi (by decide)
      · exact infix_ne_nil hi (by decide)
  · rw [if_neg hc]
    rcases pyReplace_self_or_infix "BUSD".toList "USDT".toList (g ++ "USDT".toList)
        with he | hi
    · rw [he]
      have hsuf : "USDT".toList <:+ g ++ "USDT".toList := List.suffix_append _ _
      constructor
      · intro hu
        rw [hu] at hsuf
        exact absurd hsuf (by decide)
      · exact suffix_ne_nil hsuf (by decide)
    · constructor
      · intro hu
        rw [hu] at hi
        exact absurd hi (by decide)
      · exact infix_ne_nil hi (by decide)

/-- A string with the suffix `USDT` is neither the `UNKNOWN` sentinel nor
empty. -/
theorem usdt_suffix_props {p : List Char} (h : "USDT".toList <:+ p) :
    p ≠ "UNKNOWN".toList ∧ p ≠ [] := by
  constructor
  · intro hu
    rw [hu] at h
    exact absurd h (by decide)
  · exact suffix_ne_nil h (by decide)

/-- Characterization of every successful `extract_pair` result: it is
never the `UNKNOWN` sentinel, never empty, and — whenever the
emphasis-glyph pattern 1 did not fire — it ends in `USDT`. -/
theorem extract_pair_spec (text normalized p : List Char)
    (hp : SignalParser.extract_pair text normalized = some p) :
    p ≠ "UNKNOWN".toList ∧ p ≠ [] ∧
    (reSearch SignalParser.pairPat1 (upperL normalized) = none →
      "USDT".toList <:+ p) := by
  simp only [SignalParser.extract_pair] at hp
  split at hp
  -- pattern 1
  next g1 h1 =>
    simp only [Option.some.injEq] at hp
    subst hp
    have hprops := pat1_result_props g1
    refine ⟨hprops.1, hprops.2, ?_⟩
    intro hnone
    exfalso
    unfold searchG at h1
    rw [hnone] at h1
    simp at h1
  next _ =>
  split at hp
  -- pattern 2
  next g2 _ =>
    simp only [Option.some.injEq] at hp
    subst hp
    have hs : "USDT".toList <:+ g2 ++ "USDT".toList := List.suffix_append _ _
    exact ⟨(usdt_suffix_props hs).1, (usdt_suffix_props hs).2, fun _ => hs⟩
  next _ =>
  split at hp
  -- pattern 3
  next g3 _ =>
    simp only [Option.some.injEq] at hp
    by_cases hc : "USDT".toList <:+ pyReplace "PERP".toList [] g3
    · rw [if_pos hc] at hp
      subst hp
      exact ⟨(usdt_suffix_props hc).1, (usdt_suffix_props hc).2, fun _ => hc⟩
    · rw [if_neg hc] at hp
      subst hp
      have hs : "USDT".toList <:+ pyReplace "PERP".toList [] g3 ++ "USDT".toList :=
        List.suffix_append _ _
      exact ⟨(usdt_suffix_props hs).1, (usdt_suffix_props hs).2, fun _ => hs⟩
  next _ =>
  split at hp
  -- pattern 4
  next g4 _ =>
    simp only [Option.some.injEq] at hp
    subst hp
    have hs : "USDT".toList <:+ g4 ++ "USDT".toList := List.suffix_append _ _
    exact ⟨(usdt_suffix_props hs).1, (usdt_suffix_props hs).2, fun _ => hs⟩
  next _ =>
  split at hp
  -- pattern 5
  next g5 h5 =>
    simp only [Option.some.injEq] at hp
    subst hp
    have hs := searchG_pairPat5 _ _ h5
    exact ⟨(usdt_suffix_props hs).1, (usdt_suffix_props hs).2, fun _ => hs⟩
  next _ =>
  split at hp
  -- pattern 6 (known-coin lexicon)
  next p6 h6 =>
    simp only [Option.some.injEq] at hp
    subst hp
    obtain ⟨coin, _, hcoin⟩ := List.exists_of_findSome?_eq_some h6
    by_cases hc : reTest (SignalParser.coinPat coin) (upperL normalized)
        && reTest SignalParser.dirKwPat (upperL normalized)
    · rw [if_pos hc] at hcoin
      simp only [Option.some.injEq] at hcoin
      subst hcoin
      have hs : "USDT".toList <:+ coin.toList ++ "USDT".toList := List.suffix_append _ _
      exact ⟨(usdt_suffix_props hs).1, (usdt_suffix_props hs).2, fun _ => hs⟩
    · rw [if_neg hc] at hcoin
      cases hcoin
  next _ =>
  split at hp
  -- pattern 7
  next g7 _ =>
    simp only [Option.some.injEq] at hp
    subst hp
    have hs : "USDT".toList <:+ g7 ++ "USDT".toList := List.suffix_append _ _
    exact ⟨(usdt_suffix_props hs).1, (usdt_suffix_props hs).2, fun _ => hs⟩
  next _ =>
    cases hp

/-! ## Claim C7 -/

/-- **C7** (corrected), counterexample: the emphasis-glyph pattern accepts
`⚡BTCUSD⚡` and returns the pair `BTCUSD` unchanged (the tuple suffix test
already sees `USD`, so no `USDT` is appended and no `BUSD` rewrite
applies): a successfully extracted pair that does not end in `USDT`. -/
theorem C7_pair_suffix_counterexample :
    SignalParser.extract_pair "⚡BTCUSD⚡ LONG".toList
        (SignalParser.normalize_text "⚡BTCUSD⚡ LONG".toList)
      = some "BTCUSD".toList ∧
    ¬ ("USDT".toList <:+ "BTCUSD".toList) := by
  decide

/-- **C7** (corrected, amended): every successfully extracted pair ends in
`USDT` unless it came from the emphasis-glyph pattern 1, which returns
symbols already carrying a bare `USD` (or `USDT`/`BUSD`) suffix without
normalizing `USD` to `USDT`; `extract_pair` never returns the sentinel
`"UNKNOWN"`, and consequently a Signal accepted from a non-trusted source
never has pair `"UNKNOWN"` — that sentinel can only arise for trusted/VIP
input. -/
theorem C7_pair_suffix_amended :
    (∀ (text normalized p : List Char),
      SignalParser.extract_pair text normalized = some p →
      p ≠ "UNKNOWN".toList ∧
      (reSearch SignalParser.pairPat1 (upperL normalized) = none →
        "USDT".toList <:+ p)) ∧
    (∀ (text : List Char) (channel_id : Int) (channel_name : List Char)
      (message_id : Nat) (now : Nat) (sig : Signal),
      SignalParser.parse text channel_id channel_name message_id false now = some sig →
      sig.pair ≠ "UNKNOWN".toList) := by
  constructor
  · intro text normalized p hp
    exact ⟨(extract_pair_spec _ _ _ hp).1, (extract_pair_spec _ _ _ hp).2.2⟩
  · intro text channel_id channel_name message_id now sig hs
    by_cases h0 : text = [] ∨ text.length < 10
    · rw [SignalParser.parse, if_pos h0] at hs
      cases hs
    · simp only [SignalParser.parse, if_neg h0, if_pos (rfl : (false : Bool) = false)] at hs
      rcases hpair : SignalParser.extract_pair text (SignalParser.normalize_text text)
          with _ | s0
      · rw [hpair] at hs
        simp [SignalParser.optFalsy] at hs
      · rw [hpair] at hs
        have hspec := extract_pair_spec text _ s0 hpair
        have hne : s0.isEmpty = false := by
          cases s0 with
          | nil => exact absurd rfl hspec.2.1
          | cons c t => rfl
        simp only [SignalParser.optFalsy, hne] at hs
        rw [if_neg (by decide : ¬((false : Bool) = true))] at hs
        by_cases hd : SignalParser.extract_direction text (SignalParser.normalize_text text)
            = SignalParser.SignalDirection.UNKNOWN
        · rw [if_pos hd] at hs
          cases hs
        · rw [if_neg hd] at hs
          by_cases hm : SignalParser.extract_entry (SignalParser.normalize_text text)
              = "Market".toList ∧
              SignalParser.extract_targets (SignalParser.normalize_text text) = []
          · rw [if_pos hm] at hs
            cases hs
          · rw [if_neg hm] at hs
            injection hs with hs
            subst hs
            simpa using hspec.1

/-- Witness for C7: a concrete pattern-2 extraction (the suffix
conclusion's hypothesis is discharged by evaluation), and a concrete
accepted non-trusted parse whose pair is not the sentinel. -/
theorem C7_pair_suffix_witness :
    (SignalParser.extract_pair "XY/USDT GO".toList
        (SignalParser.normalize_text "XY/USDT GO".toList) = some "XYUSDT".toList ∧
      reSearch SignalParser.pairPat1
        (upperL (SignalParser.normalize_text "XY/USDT GO".toList)) = none ∧
      "XYUSDT".toList ≠ "UNKNOWN".toList ∧ "USDT".toList <:+ "XYUSDT".toList) ∧
    (SignalParser.parse "#BTC LONG TP - 5".toList 9 "C".toList 4 false 0
        = some c7WitnessSig ∧
      c7WitnessSig.pair ≠ "UNKNOWN".toList) :=
  ⟨⟨by decide, by decide,
    (C7_pair_suffix_amended.1 "XY/USDT GO".toList
      (SignalParser.normalize_text "XY/USDT GO".toList) "XYUSDT".toList (by decide)).1,
    (C7_pair_suffix_amended.1 "XY/USDT GO".toList
      (SignalParser.normalize_text "XY/USDT GO".toList) "XYUSDT".toList
      (by decide)).2 (by decide)⟩,
   ⟨by decide,
    C7_pair_suffix_amended.2 "#BTC LONG TP - 5".toList 9 "C".toList 4 0 c7WitnessSig
      (by decide)⟩⟩

/-! ## Claim C1 -/

theorem ite3_none_iff (A B C : Prop) [Decidable A] [Decidable B] [Decidable C]
    (r : Signal) :
    ((if A then none else if B then none else if C then none else some r :
        Option Signal) = none) ↔ (A ∨ B ∨ C) := by
  by_cases hA : A <;> by_cases hB : B <;> by_cases hC : C <;> simp [hA, hB, hC]

theorem ite1_none_iff (A : Prop) [Decidable A] (r : Signal) :
    ((if A then none else some r : Option Signal) = none) ↔ A := by
  by_cases hA : A <;> simp [hA]

/-- `not pair` is truthy exactly when extraction failed: a successful
extraction is never the empty string. -/
theorem optFalsy_extract_pair_iff (text normalized : List Char) :
    (SignalParser.optFalsy (SignalParser.extract_pair text normalized) = true)
      ↔ SignalParser.extract_pair text normalized = none := by
  rcases hp : SignalParser.extract_pair text normalized with _ | s0
  · simp [SignalParser.optFalsy]
  · have hs0 : s0 ≠ [] := (extract_pair_spec _ _ _ hp).2.1
    have hne : s0.isEmpty = false := by
      cases s0 with
      | nil => exact absurd rfl hs0
      | cons c t => rfl
    simp [SignalParser.optFalsy, hne]

/-- **C1** (corrected), counterexample: the claim's biconditionals ignore
the minimum-length gate.  The 6-character trusted input `"🟢 #BTC"` has a
resolvable direction (the green-circle emoji forces `LONG`), so the claim
says it is accepted — but `parse` returns absent. -/
theorem C1_validation_gate_counterexample :
    SignalParser.parse "🟢 #BTC".toList 1 "C".toList 2 true 0 = none ∧
    SignalParser.extract_direction "🟢 #BTC".toList
        (SignalParser.normalize_text "🟢 #BTC".toList)
      ≠ SignalParser.SignalDirection.UNKNOWN := by
  decide

/-- **C1** (corrected, amended with the length precondition): for input of
at least 10 characters, non-trusted parse is absent exactly when the pair
is absent, the direction is `UNKNOWN`, or the entry is `"Market"` with no
targets; trusted parse is absent exactly when both the pair is absent and
the direction is `UNKNOWN`; and a trusted accept without a resolvable pair
carries the `"UNKNOWN"` sentinel pair. -/
theorem C1_validation_gate_amended (text : List Char) (channel_id : Int)
    (channel_name : List Char) (message_id : Nat) (now : Nat)
    (hlen : 10 ≤ text.length) :
    (SignalParser.parse text channel_id channel_name message_id false now = none ↔
      (SignalParser.extract_pair text (SignalParser.normalize_text text) = none ∨
        SignalParser.extract_direction text (SignalParser.normalize_text text)
          = SignalParser.SignalDirection.UNKNOWN ∨
        (SignalParser.extract_entry (SignalParser.normalize_text text)
            = "Market".toList ∧
          SignalParser.extract_targets (SignalParser.normalize_text text) = []))) ∧
    (SignalParser.parse text channel_id channel_name message_id true now = none ↔
      (SignalParser.extract_pair text (SignalParser.normalize_text text) = none ∧
        SignalParser.extract_direction text (SignalParser.normalize_text text)
          = SignalParser.SignalDirection.UNKNOWN)) ∧
    (∀ sig, SignalParser.parse text channel_id channel_name message_id true now
        = some sig →
      SignalParser.extract_pair text (SignalParser.normalize_text text) = none →
      sig.pair = "UNKNOWN".toList) := by
  have h0 : ¬(text = [] ∨ text.length < 10) := by
    rintro (h | h)
    · rw [h] at hlen
      simp at hlen
    · omega
  refine ⟨?_, ?_, ?_⟩
  · simp only [SignalParser.parse, if_neg h0, if_pos (rfl : (false : Bool) = false),
      if_true, if_false]
    rw [ite3_none_iff, optFalsy_extract_pair_iff]
  · simp only [SignalParser.parse, if_neg h0,
      if_neg (by decide : ¬((true : Bool) = false)), if_true, if_false]
    rw [ite1_none_iff]
    rw [and_congr_left_iff]
    intro _
    rw [optFalsy_extract_pair_iff]
  · intro sig hs hpn
    simp only [SignalParser.parse, if_neg h0,
      if_neg (by decide : ¬((true : Bool) = false)), if_true, if_false] at hs
    rw [hpn] at hs
    simp only [SignalParser.optFalsy] at hs
    split at hs
    · exact absurd hs (by simp)
    · injection hs with hs
      subst hs
      simp

/-- Witness for C1 (amended): a 14-character chatter text with no pair, no
direction keywords and no targets — rejected for both trust levels, as the
amended biconditionals state. -/
theorem C1_validation_gate_witness :
    (10 ≤ "BLAH BLAH BLAH".toList.length) ∧
    (SignalParser.parse "BLAH BLAH BLAH".toList 1 "C".toList 2 false 0 = none ↔
      (SignalParser.extract_pair "BLAH BLAH BLAH".toList
          (SignalParser.normalize_text "BLAH BLAH BLAH".toList) = none ∨
        SignalParser.extract_direction "BLAH BLAH BLAH".toList
          (SignalParser.normalize_text "BLAH BLAH BLAH".toList)
          = SignalParser.SignalDirection.UNKNOWN ∨
        (SignalParser.extract_entry
            (SignalParser.normalize_text "BLAH BLAH BLAH".toList) = "Market".toList ∧
          SignalParser.extract_targets
            (SignalParser.normalize_text "BLAH BLAH BLAH".toList) = []))) ∧
    (SignalParser.parse "BLAH BLAH BLAH".toList 1 "C".toList 2 true 0 = none ↔
      (SignalParser.extract_pair "BLAH BLAH BLAH".toList
          (SignalParser.normalize_text "BLAH BLAH BLAH".toList) = none ∧
        SignalParser.extract_direction "BLAH BLAH BLAH".toList
          (SignalParser.normalize_text "BLAH BLAH BLAH".toList)
          = SignalParser.SignalDirection.UNKNOWN)) :=
  ⟨by decide,
   (C1_validation_gate_amended "BLAH BLAH BLAH".toList 1 "C".toList 2 0 (by decide)).1,
   (C1_validation_gate_amended "BLAH BLAH BLAH".toList 1 "C".toList 2 0 (by decide)).2.1⟩

/-! ## Claim C4 -/

/-- **C4** (corrected), counterexample: `"SHORT THEN LONG"` has no
directional emoji, a short keyword at offset 0 and a long keyword at
offset 11, yet `extract_direction` resolves to `LONG`: the long-pattern
scan runs to completion before any short pattern is consulted, so there is
no earliest-offset tie-break. -/
theorem C4_direction_tiebreak_counterexample :
    ¬ hasDirEmoji "SHORT THEN LONG".toList ∧
    anyShortKw (upperL (SignalParser.normalize_text "SHORT THEN LONG".toList)) = true ∧
    anyLongKw (upperL (SignalParser.normalize_text "SHORT THEN LONG".toList)) = true ∧
    firstKeywordPos SignalParser.short_patterns
        (upperL (SignalParser.normalize_text "SHORT THEN LONG".toList)) = some 0 ∧
    firstKeywordPos SignalParser.long_patterns
        (upperL (SignalParser.normalize_text "SHORT THEN LONG".toList)) = some 11 ∧
    SignalParser.extract_direction "SHORT THEN LONG".toList
        (SignalParser.normalize_text "SHORT THEN LONG".toList)
      = SignalParser.SignalDirection.LONG := by
  decide

/-- **C4** (corrected, amended): without directional emoji, direction
resolution gives the long-indicating patterns absolute priority — if any
long pattern matches the result is `LONG` regardless of where (or whether)
short keywords occur; if no long pattern but some short pattern matches,
the result is `SHORT`; if neither side matches, the standalone BUY/SELL
fallback applies and in particular the result is `UNKNOWN` whenever `BUY`
and `SELL` are both present or both absent. -/
theorem C4_direction_priority_amended (text normalized : List Char)
    (hne : ¬ hasDirEmoji text) :
    (anyLongKw (upperL normalized) = true →
      SignalParser.extract_direction text normalized
        = SignalParser.SignalDirection.LONG) ∧
    (anyLongKw (upperL normalized) = false → anyShortKw (upperL normalized) = true →
      SignalParser.extract_direction text normalized
        = SignalParser.SignalDirection.SHORT) ∧
    (anyLongKw (upperL normalized) = false → anyShortKw (upperL normalized) = false →
      reTest SignalParser.buyPat (upperL normalized)
          = reTest SignalParser.sellPat (upperL normalized) →
      SignalParser.extract_direction text normalized
        = SignalParser.SignalDirection.UNKNOWN) := by
  have hg : ¬ (("🟢".toList <:+: text) ∨ ("📈".toList <:+: text)
      ∨ ("⬆️".toList <:+: text) ∨ ("🔼".toList <:+: text)) := by
    intro h
    apply hne
    unfold hasDirEmoji
    tauto
  have hr : ¬ (("🔴".toList <:+: text) ∨ ("📉".toList <:+: text)
      ∨ ("⬇️".toList <:+: text) ∨ ("🔽".toList <:+: text)) := by
    intro h
    apply hne
    unfold hasDirEmoji
    tauto
  refine ⟨?_, ?_, ?_⟩
  · intro hl
    unfold anyLongKw at hl
    simp only [SignalParser.extract_direction, if_neg hg, if_neg hr]
    rw [if_pos hl]
  · intro hl hs
    unfold anyLongKw at hl
    unfold anyShortKw at hs
    simp only [SignalParser.extract_direction, if_neg hg, if_neg hr]
    rw [if_neg (by simp [hl]), if_pos hs]
  · intro hl hs hbs
    unfold anyLongKw at hl
    unfold anyShortKw at hs
    simp only [SignalParser.extract_direction, if_neg hg, if_neg hr]
    rw [if_neg (by simp [hl]), if_neg (by simp [hs])]
    cases hbv : reTest SignalParser.buyPat (upperL normalized) with
    | true =>
      rw [hbv] at hbs
      simp [← hbs]
    | false =>
      rw [hbv] at hbs
      simp [← hbs]

/-- Witness for C4 (amended): a long-keyword-only text resolves to `LONG`,
and a keyword-free text resolves to `UNKNOWN`. -/
theorem C4_direction_priority_witness :
    (¬ hasDirEmoji "GO LONG NOW".toList ∧
      anyLongKw (upperL (SignalParser.normalize_text "GO LONG NOW".toList)) = true ∧
      SignalParser.extract_direction "GO LONG NOW".toList
          (SignalParser.normalize_text "GO LONG NOW".toList)
        = SignalParser.SignalDirection.LONG) ∧
    (¬ hasDirEmoji "HELLO WORLD".toList ∧
      SignalParser.extract_direction "HELLO WORLD".toList
          (SignalParser.normalize_text "HELLO WORLD".toList)
        = SignalParser.SignalDirection.UNKNOWN) :=
  ⟨⟨by decide, by decide,
    (C4_direction_priority_amended "GO LONG NOW".toList
      (SignalParser.normalize_text "GO LONG NOW".toList) (by decide)).1 (by decide)⟩,
   ⟨by decide,
    (C4_direction_priority_amended "HELLO WORLD".toList
      (SignalParser.normalize_text "HELLO WORLD".toList) (by decide)).2.2
      (by decide) (by decide) (by decide)⟩⟩

/-! ## Claim C6 -/

theorem clean_number_chars (v : List Char) :
    ∀ c ∈ clean_number v, c.isDigit ∨ c = '.' ∨ c = '-' := by
  intro c hc
  unfold clean_number stripDotMinus at hc
  rw [List.mem_reverse] at hc
  have hc2 := (List.dropWhile_sublist _).subset hc
  rw [List.mem_reverse] at hc2
  have hc3 := (List.dropWhile_sublist _).subset hc2
  have := (List.mem_filter.mp hc3).2
  simp at this
  tauto

theorem keyOf_pct (p : List Char) : keyOf (p ++ ['%']) = p := by
  unfold keyOf
  rw [List.getLast?_concat, if_pos rfl, List.dropLast_concat]

theorem keyOf_clean_number (m : List Char) :
    keyOf (clean_number m) = clean_number m := by
  unfold keyOf
  rcases hl : (clean_number m).getLast? with _ | c
  · rw [if_neg (by simp)]
  · have hcm : c ∈ clean_number m := by
      have := List.getLast?_eq_getLast (clean_number m) ?hne
      case hne =>
        intro he
        rw [he] at hl
        simp at hl
      rw [this] at hl
      injection hl with hl
      rw [← hl]
      exact List.getLast_mem _
    have hch := clean_number_chars m c hcm
    have hne : c ≠ '%' := by
      rcases hch with h | h | h
      · intro he
        rw [he] at h
        exact absurd h (by decide)
      · rw [h]
        decide
      · rw [h]
        decide
    rw [if_neg (by intro he; injection he with he; exact hne he)]

theorem nodup_snoc {α : Type} [DecidableEq α] (l : List α) (a : α)
    (h1 : l.Nodup) (h2 : a ∉ l) : (l ++ [a]).Nodup := by
  simp [List.nodup_append, h1, h2]

theorem tgtInv_addPct (st : SignalParser.TgtSt) (p : List Char) (h : TgtInv st) :
    TgtInv (SignalParser.addPct st p) := by
  unfold SignalParser.addPct
  by_cases hc : p ∈ st.2
  · rwa [if_pos hc]
  · rw [if_neg hc]
    constructor
    · refine nodup_snoc _ _ h.1 ?_
      intro hin
      exact hc (keyOf_pct p ▸ h.2 _ hin)
    · intro t ht
      rcases List.mem_append.mp ht with ht | ht
      · exact List.mem_append_left _ (h.2 t ht)
      · rw [List.mem_singleton.mp ht, keyOf_pct]
        exact List.mem_append_right _ (List.mem_singleton.mpr rfl)

theorem tgtInv_addNum (st : SignalParser.TgtSt) (m : List Char) (h : TgtInv st) :
    TgtInv (SignalParser.addNum st m) := by
  unfold SignalParser.addNum
  by_cases hc : clean_number m ≠ [] ∧ clean_number m ∉ st.2 ∧
      pyFloatGtZero (clean_number m) = true
  · rw [if_pos hc]
    constructor
    · refine nodup_snoc _ _ h.1 ?_
      intro hin
      exact hc.2.1 (keyOf_clean_number m ▸ h.2 _ hin)
    · intro t ht
      rcases List.mem_append.mp ht with ht | ht
      · exact List.mem_append_left _ (h.2 t ht)
      · rw [List.mem_singleton.mp ht, keyOf_clean_number]
        exact List.mem_append_right _ (List.mem_singleton.mpr rfl)
  · rwa [if_neg hc]

theorem tgtInv_addNumNoCheck (st : SignalParser.TgtSt) (m : List Char)
    (h : TgtInv st) : TgtInv (SignalParser.addNumNoCheck st m) := by
  unfold SignalParser.addNumNoCheck
  by_cases hc : clean_number m ≠ [] ∧ clean_number m ∉ st.2
  · rw [if_pos hc]
    constructor
    · refine nodup_snoc _ _ h.1 ?_
      intro hin
      exact hc.2 (keyOf_clean_number m ▸ h.2 _ hin)
    · intro t ht
      rcases List.mem_append.mp ht with ht | ht
      · exact List.mem_append_left _ (h.2 t ht)
      · rw [List.mem_singleton.mp ht, keyOf_clean_number]
        exact List.mem_append_right _ (List.mem_singleton.mpr rfl)
  · rwa [if_neg hc]

theorem tgtInv_foldl_addPct (l : List (List Char)) (st : SignalParser.TgtSt)
    (h : TgtInv st) : TgtInv (l.foldl SignalParser.addPct st) := by
  induction l generalizing st with
  | nil => exact h
  | cons a t ih => exact ih _ (tgtInv_addPct _ _ h)

theorem tgtInv_foldl_addNum (l : List (List Char)) (st : SignalParser.TgtSt)
    (h : TgtInv st) : TgtInv (l.foldl SignalParser.addNum st) := by
  induction l generalizing st with
  | nil => exact h
  | cons a t ih => exact ih _ (tgtInv_addNum _ _ h)

theorem tgtInv_foldl_addNumNoCheck (l : List (List Char)) (st : SignalParser.TgtSt)
    (h : TgtInv st) : TgtInv (l.foldl SignalParser.addNumNoCheck st) := by
  induction l generalizing st with
  | nil => exact h
  | cons a t ih => exact ih _ (tgtInv_addNumNoCheck _ _ h)

theorem tgtInv_tpFold (pats : List RE) (tu : List Char) (st : SignalParser.TgtSt)
    (h : TgtInv st) :
    TgtInv (pats.foldl (fun st p => (reFindAllG p tu).foldl SignalParser.addNum st) st) := by
  induction pats generalizing st with
  | nil => exact h
  | cons p t ih => exact ih _ (tgtInv_foldl_addNum _ _ h)

theorem tgtInv_optMatch (x : Option (List Char)) (f : List Char → SignalParser.TgtSt)
    (st : SignalParser.TgtSt) (h : TgtInv st) (hf : ∀ g, TgtInv (f g)) :
    TgtInv (match x with | some g => f g | none => st) := by
  rcases x with _ | g
  · exact h
  · exact hf g

theorem tgtInv_targetsBuild (normalized : List Char) :
    TgtInv (SignalParser.targetsBuild normalized) := by
  have h0 : TgtInv ([], []) := ⟨List.nodup_nil, by simp⟩
  have h1 : TgtInv (match searchG SignalParser.pct_group_pat (upperL normalized) with
      | some g => (reFindAllG SignalParser.pct_inner_pat g).foldl SignalParser.addPct
          (([], []) : SignalParser.TgtSt)
      | none => (([], []) : SignalParser.TgtSt)) :=
    tgtInv_optMatch _ _ _ h0 (fun g => tgtInv_foldl_addPct _ _ h0)
  have h2 : TgtInv (match searchG SignalParser.single_pct_pat (upperL normalized) with
      | some g => SignalParser.addPct (match searchG SignalParser.pct_group_pat
          (upperL normalized) with
        | some g => (reFindAllG SignalParser.pct_inner_pat g).foldl SignalParser.addPct
            (([], []) : SignalParser.TgtSt)
        | none => (([], []) : SignalParser.TgtSt)) g
      | none => (match searchG SignalParser.pct_group_pat (upperL normalized) with
        | some g => (reFindAllG SignalParser.pct_inner_pat g).foldl SignalParser.addPct
            (([], []) : SignalParser.TgtSt)
        | none => (([], []) : SignalParser.TgtSt))) :=
    tgtInv_optMatch _ _ _ h1 (fun g => tgtInv_addPct _ _ h1)
  have h3 := tgtInv_tpFold SignalParser.tp_patterns (upperL normalized) _ h2
  have h4 := tgtInv_foldl_addNumNoCheck
    (reFindAllG SignalParser.emoji_target_pat normalized) _ h3
  exact h4

/-- **C6** (confirmed).  `extract_targets` always returns a
duplicate-free list of at most 6 entries, equal to the first 6 entries of
the full (uncapped) merge of the four sub-patterns in order of first
appearance; when more than 6 targets are extractable, exactly 6 are
returned. -/
theorem C6_target_cap (normalized : List Char) :
    (SignalParser.extract_targets normalized).Nodup ∧
    (SignalParser.extract_targets normalized).length ≤ 6 ∧
    SignalParser.extract_targets normalized = (extractTargetsAll normalized).take 6 ∧
    (6 < (extractTargetsAll normalized).length →
      (SignalParser.extract_targets normalized).length = 6) := by
  have hb := tgtInv_targetsBuild normalized
  refine ⟨?_, ?_, rfl, ?_⟩
  · exact List.Nodup.sublist (List.take_sublist 6 _) hb.1
  · exact List.length_take_le 6 _
  · intro h
    unfold SignalParser.extract_targets
    rw [List.length_take]
    unfold extractTargetsAll at h
    omega

/-- Witness for C6: a text with seven extractable percentage targets
yields exactly the first six. -/
theorem C6_target_cap_witness :
    6 < (extractTargetsAll
        (SignalParser.normalize_text "TARGET: 1%/2%/3%/4%/5%/6%/7%".toList)).length ∧
    (SignalParser.extract_targets
        (SignalParser.normalize_text "TARGET: 1%/2%/3%/4%/5%/6%/7%".toList)).length = 6 :=
  ⟨by decide,
    (C6_target_cap (SignalParser.normalize_text "TARGET: 1%/2%/3%/4%/5%/6%/7%".toList)).2.2.2
      (by decide)⟩

/-! ## Claim C8 -/

theorem head_dropWhile_not (p : Char → Bool) (l : List Char) :
    ∀ c, (l.dropWhile p).head? = some c → p c = false := by
  induction l with
  | nil =>
    intro c h
    simp at h
  | cons a t ih =>
    intro c h
    rw [List.dropWhile_cons] at h
    by_cases hp : p a
    · rw [if_pos hp] at h
      exact ih c h
    · rw [if_neg hp] at h
      simp only [List.head?_cons, Option.some.injEq] at h
      rw [← h]
      simp at hp
      exact hp

theorem stripDotMinus_getLast (l : List Char) :
    ∀ c, (stripDotMinus l).getLast? = some c → isStripChar c = false := by
  intro c h
  unfold stripDotMinus at h
  rw [List.getLast?_reverse] at h
  exact head_dropWhile_not _ _ c h

theorem stripDotMinus_head (l : List Char) :
    ∀ c, (stripDotMinus l).head? = some c → isStripChar c = false := by
  intro c h
  unfold stripDotMinus at h
  rw [List.head?_reverse] at h
  have hBne : (l.dropWhile isStripChar).reverse.dropWhile isStripChar ≠ [] := by
    intro he
    rw [he] at h
    simp at h
  obtain ⟨pre, hpre⟩ :=
    List.dropWhile_suffix (l := (l.dropWhile isStripChar).reverse) isStripChar
  have h2 : (l.dropWhile isStripChar).reverse.getLast? = some c := by
    rw [← hpre, List.getLast?_append_of_ne_nil _ hBne]
    exact h
  rw [List.getLast?_reverse] at h2
  exact head_dropWhile_not _ _ c h2

theorem findSome?_entryTry_pos (tu v : List Char)
    (h : SignalParser.entry_patterns.findSome? (SignalParser.entryTry tu) = some v) :
    pyFloatGtZero v = true := by
  obtain ⟨p, _, hp⟩ := List.exists_of_findSome?_eq_some h
  unfold SignalParser.entryTry at hp
  split at hp
  next g hg =>
    by_cases hc : clean_number g ≠ [] ∧ pyFloatGtZero (clean_number g) = true
    · rw [if_pos hc] at hp
      injection hp with hp
      rw [← hp]
      exact hc.2
    · rw [if_neg hc] at hp
      cases hp
  next hg =>
    cases hp

theorem addNum_mem (st : SignalParser.TgtSt) (m t : List Char)
    (h : t ∈ (SignalParser.addNum st m).1) : t ∈ st.1 ∨ pyFloatGtZero t = true := by
  unfold SignalParser.addNum at h
  by_cases hc : clean_number m ≠ [] ∧ clean_number m ∉ st.2 ∧
      pyFloatGtZero (clean_number m) = true
  · rw [if_pos hc] at h
    rcases List.mem_append.mp h with h | h
    · exact Or.inl h
    · right
      rw [List.mem_singleton.mp h]
      exact hc.2.2
  · rw [if_neg hc] at h
    exact Or.inl h

theorem foldl_addNum_mem (l : List (List Char)) (st : SignalParser.TgtSt)
    (t : List Char) (h : t ∈ (l.foldl SignalParser.addNum st).1) :
    t ∈ st.1 ∨ pyFloatGtZero t = true := by
  induction l generalizing st with
  | nil => exact Or.inl h
  | cons a rest ih =>
    rcases ih _ h with h2 | h2
    · exact addNum_mem _ _ _ h2
    · exact Or.inr h2

theorem extract_stop_loss_spec (normalized : List Char) :
    SignalParser.extract_stop_loss normalized = [] ∨
    (∃ p g, p ∈ SignalParser.sl_patterns ∧ searchG p (upperL normalized) = some g ∧
      SignalParser.extract_stop_loss normalized = clean_number g ∧
      SignalParser.extract_stop_loss normalized ≠ []) := by
  rcases hF : SignalParser.sl_patterns.findSome? (SignalParser.slTry (upperL normalized))
      with _ | w
  · left
    simp only [SignalParser.extract_stop_loss]
    rw [hF]
  · have hval : SignalParser.extract_stop_loss normalized = w := by
      simp only [SignalParser.extract_stop_loss]
      rw [hF]
    right
    obtain ⟨p, hmem, hp⟩ := List.exists_of_findSome?_eq_some hF
    unfold SignalParser.slTry at hp
    split at hp
    next g hg =>
      by_cases hc : clean_number g ≠ []
      · rw [if_pos hc] at hp
        injection hp with hp
        exact ⟨p, g, hmem, hg, by rw [hval, ← hp], by rw [hval, ← hp]; exact hc⟩
      · rw [if_neg hc] at hp
        cases hp
    next hg =>
      cases hp

/-- **C8** (corrected), counterexample: `extract_stop_loss` applies no
positivity check — from `"SL - 0"` it extracts and returns the cleaned
value `"0"`, which does not parse as a number strictly greater than 0, yet
is not treated as not-found (the not-found default is the empty string). -/
theorem C8_numeric_cleaning_counterexample :
    SignalParser.extract_stop_loss (SignalParser.normalize_text "SL - 0".toList)
      = "0".toList ∧
    pyFloatGtZero "0".toList = false := by
  decide

/-- **C8** (corrected, amended): matched values are cleaned by keeping
only digits, dot and minus and trimming leading/trailing dots and minus
signs; the labeled entry patterns and the labeled TP-price target patterns
discard any cleaned value that does not parse as a number strictly greater
than 0; but the stop-loss extractor accepts any non-empty cleaned value of
its first matching pattern, without the positivity check (as do the
above/below entry branch and the percentage/emoji target branches). -/
theorem C8_numeric_cleaning_amended :
    (∀ v : List Char, (∀ c ∈ clean_number v, c.isDigit ∨ c = '.' ∨ c = '-') ∧
      (∀ c, (clean_number v).head? = some c → isStripChar c = false) ∧
      (∀ c, (clean_number v).getLast? = some c → isStripChar c = false)) ∧
    (∀ tu v : List Char,
      SignalParser.entry_patterns.findSome? (SignalParser.entryTry tu) = some v →
      pyFloatGtZero v = true) ∧
    (∀ (tu : List Char) (st : SignalParser.TgtSt) (p : RE) (t : List Char),
      t ∈ ((reFindAllG p tu).foldl SignalParser.addNum st).1 →
      t ∈ st.1 ∨ pyFloatGtZero t = true) ∧
    (∀ normalized : List Char, SignalParser.extract_stop_loss normalized = [] ∨
      (∃ p g, p ∈ SignalParser.sl_patterns ∧ searchG p (upperL normalized) = some g ∧
        SignalParser.extract_stop_loss normalized = clean_number g ∧
        SignalParser.extract_stop_loss normalized ≠ [])) := by
  refine ⟨?_, findSome?_entryTry_pos, ?_, extract_stop_loss_spec⟩
  · intro v
    exact ⟨clean_number_chars v, stripDotMinus_head _, stripDotMinus_getLast _⟩
  · intro tu st p t h
    exact foldl_addNum_mem _ _ _ h

/-- Witness for C8 (amended): the cleaning of `"x1,2.-"`, a labeled entry
extraction of a positive value, a TP-target fold membership, and the
stop-loss disjunction at `"SL - 0"`. -/
theorem C8_numeric_cleaning_witness :
    ((clean_number "x1,2.-".toList).head? = some '1' ∧ isStripChar '1' = false) ∧
    (SignalParser.entry_patterns.findSome?
        (SignalParser.entryTry "ENTRY: 5".toList) = some "5".toList ∧
      pyFloatGtZero "5".toList = true) ∧
    ("5".toList ∈ ((reFindAllG (seqR [lit "TP", RE.star sR, anyOf "-:=", RE.star sR,
        RE.grp (plusR SignalParser.numCC), RE.nla (RE.cat (RE.star sR) (chrR '%'))])
        "TP - 5".toList).foldl SignalParser.addNum (([], []) : SignalParser.TgtSt)).1 ∧
      ("5".toList ∈ (([] : List (List Char)), ([] : List (List Char))).1 ∨
        pyFloatGtZero "5".toList = true)) :=
  ⟨⟨by decide, (C8_numeric_cleaning_amended.1 "x1,2.-".toList).2.1 '1' (by decide)⟩,
   ⟨by decide, C8_numeric_cleaning_amended.2.1 "ENTRY: 5".toList "5".toList (by decide)⟩,
   ⟨by decide, C8_numeric_cleaning_amended.2.2.1 "TP - 5".toList ([], [])
      (seqR [lit "TP", RE.star sR, anyOf "-:=", RE.star sR,
        RE.grp (plusR SignalParser.numCC), RE.nla (RE.cat (RE.star sR) (chrR '%'))])
      "5".toList (by decide)⟩⟩

end App
